import Mathlib

/-!
# hk::Integer

A shallow embedding of `include/hk/integer.h` (the class template
`hk::Integer<I>`, `I` an integral type) and of `examples/1-simple.cc`.

The class stores one field `value` of type `I` and forwards every operator to
the built-in operator of `I`.  The embedding therefore has two layers:

* `IntType`: the built-in integer types and their operators, following the
  rules of C++20: operands narrower than `int` are promoted to `int`, the
  operation is evaluated in the promoted type, and storing back into an `I`
  lvalue converts modulo `2 ^ bits`.  Values are mathematical integers; the
  bit pattern of a value is its two's complement encoding.
* `Integer`: the member and friend functions of the class, one definition per
  function, in state-passing style (a mutating member returns the new state of
  `*this`).  Functions that compare addresses (`this == &rhs`) are modelled on
  a store of objects.

Arithmetic that leaves the range of a signed promoted type is reduced modulo
`2 ^ bits` (two's complement wraparound, the reading of section 7 of the
specification).  A shift count outside `[0, bits)` of the promoted left operand
is reduced modulo that width, as the shift instructions of x86-64 and AArch64
do: the wrapper has no fault path for a shift and returns a value for every
count.  Division by zero and a quotient outside the promoted type have no
value and are reported as a `Fault`.
-/

namespace hk

/-- Reasons for which a built-in operation yields no value. -/
inductive Fault where
  | divByZero
  | overflow
deriving DecidableEq, Repr

deriving instance DecidableEq for Except

/-- An integral type `I` on a target: its width in bits, its signedness, and
the width of `int` on that target (which fixes integral promotion). -/
structure IntType where
  bits : Nat
  signed : Bool
  intBits : Nat
deriving DecidableEq, Repr

namespace IntType

/-- Least value of the type. -/
def minVal (T : IntType) : Int :=
  if T.signed then -(2 ^ (T.bits - 1)) else 0

/-- Greatest value of the type. -/
def maxVal (T : IntType) : Int :=
  if T.signed then 2 ^ (T.bits - 1) - 1 else 2 ^ T.bits - 1

/-- The integer `v` is a value of the type. -/
def inRange (T : IntType) (v : Int) : Prop :=
  T.minVal ≤ v ∧ v ≤ T.maxVal

instance (T : IntType) (v : Int) : Decidable (T.inRange v) := by
  unfold inRange
  exact inferInstance

/-- Bit pattern of a value: its two's complement encoding on `bits` bits. -/
def pattern (T : IntType) (v : Int) : Nat :=
  (v % 2 ^ T.bits).toNat

/-- Integral conversion to the type: the unique value of the type congruent
to `v` modulo `2 ^ bits`. -/
def convert (T : IntType) (v : Int) : Int :=
  let m := v % 2 ^ T.bits
  if T.signed && decide (2 ^ (T.bits - 1) ≤ m) then m - 2 ^ T.bits else m

/-- Integral promotion: a type narrower than `int` is promoted to `int`,
any other type is unchanged. -/
def promote (T : IntType) : IntType :=
  if T.bits < T.intBits then ⟨T.intBits, true, T.intBits⟩ else T

/-- Built-in `a + b` on operands of type `T`, evaluated in the promoted type.
A sum outside the promoted type is reduced modulo `2 ^ bits`, also when the
promoted type is signed (two's complement wraparound); the same holds for
`-` and `*`. -/
def add (T : IntType) (a b : Int) : Int :=
  T.promote.convert (a + b)

/-- Built-in `a - b`. -/
def sub (T : IntType) (a b : Int) : Int :=
  T.promote.convert (a - b)

/-- Built-in `a * b`. -/
def mul (T : IntType) (a b : Int) : Int :=
  T.promote.convert (a * b)

/-- Built-in `a / b`: truncated quotient; no value when `b` is zero or when
the quotient is not a value of the promoted type. -/
def div (T : IntType) (a b : Int) : Except Fault Int :=
  if b = 0 then .error .divByZero
  else if T.promote.inRange (a.tdiv b) then .ok (a.tdiv b)
  else .error .overflow

/-- Built-in `a % b`: remainder of the truncated division, with the same
faults as the division. -/
def mod (T : IntType) (a b : Int) : Except Fault Int :=
  if b = 0 then .error .divByZero
  else if T.promote.inRange (a.tdiv b) then .ok (a.tmod b)
  else .error .overflow

/-- Built-in `a & b`: the value of the promoted type whose pattern is the
conjunction of the patterns of the promoted operands. -/
def and (T : IntType) (a b : Int) : Int :=
  T.promote.convert ((T.promote.pattern a &&& T.promote.pattern b : Nat) : Int)

/-- Built-in `a | b`. -/
def or (T : IntType) (a b : Int) : Int :=
  T.promote.convert ((T.promote.pattern a ||| T.promote.pattern b : Nat) : Int)

/-- Built-in `a ^ b` (exclusive or). -/
def xor (T : IntType) (a b : Int) : Int :=
  T.promote.convert ((T.promote.pattern a ^^^ T.promote.pattern b : Nat) : Int)

/-- The count by which a shift with right operand `b` moves a left operand of
type `T`: `b` itself when it lies in `[0, width)` of the promoted left operand,
and `b` reduced modulo that width otherwise (the shift instruction of the
target reads the low bits of the count). -/
def shiftCount (T : IntType) (b : Int) : Nat :=
  (b % (T.promote.bits : Int)).toNat

/-- Built-in `a << b`: the value of the promoted type congruent to `a * 2 ^ k`,
where `k` is the count of `shiftCount`. -/
def shl (T : IntType) (a b : Int) : Int :=
  T.promote.convert (a * 2 ^ T.shiftCount b)

/-- Built-in `a >> b`: `a / 2 ^ k` rounded toward negative infinity (an
arithmetic shift), where `k` is the count of `shiftCount`. -/
def shr (T : IntType) (a b : Int) : Int :=
  Int.fdiv a (2 ^ T.shiftCount b)

end IntType

/-- The class `hk::Integer<I>`: one private field `value` of type `I`. -/
structure Integer (T : IntType) where
  value : Int
deriving DecidableEq, Repr

namespace Integer

variable {T : IntType}

/-- Copy constructor `Integer(Integer&) = default`. -/
def copy (other : Integer T) : Integer T :=
  ⟨other.value⟩

/-- Getter `get()`: the stored value (read through the returned reference). -/
def get (self : Integer T) : Int :=
  self.value

/-- Addition assignment `operator+=`: `value += rhs.value`. -/
def addAssign (self rhs : Integer T) : Integer T :=
  ⟨T.convert (T.add self.value rhs.value)⟩

/-- Addition `operator+`: `lhs` is taken by value. -/
def add (lhs rhs : Integer T) : Integer T :=
  let lhs := lhs.addAssign rhs
  lhs

/-- Subtraction assignment `operator-=`: `value -= rhs.value`. -/
def subAssign (self rhs : Integer T) : Integer T :=
  ⟨T.convert (T.sub self.value rhs.value)⟩

/-- Subtraction `operator-`. -/
def sub (lhs rhs : Integer T) : Integer T :=
  let lhs := lhs.subAssign rhs
  lhs

/-- Multiplication assignment `operator*=`: `value *= rhs.value`. -/
def mulAssign (self rhs : Integer T) : Integer T :=
  ⟨T.convert (T.mul self.value rhs.value)⟩

/-- Multiplication `operator*`. -/
def mul (lhs rhs : Integer T) : Integer T :=
  let lhs := lhs.mulAssign rhs
  lhs

/-- Division assignment `operator/=`: `value /= rhs.value`. -/
def divAssign (self rhs : Integer T) : Except Fault (Integer T) := do
  let q ← T.div self.value rhs.value
  pure ⟨T.convert q⟩

/-- Division `operator/`. -/
def div (lhs rhs : Integer T) : Except Fault (Integer T) := do
  let lhs ← lhs.divAssign rhs
  pure lhs

/-- Modulation assignment `operator%=`: `value %= rhs.value`. -/
def modAssign (self rhs : Integer T) : Except Fault (Integer T) := do
  let r ← T.mod self.value rhs.value
  pure ⟨T.convert r⟩

/-- Modulation `operator%`. -/
def mod (lhs rhs : Integer T) : Except Fault (Integer T) := do
  let lhs ← lhs.modAssign rhs
  pure lhs

/-- Bitwise and assignment `operator&=`: `value &= rhs.value`. -/
def andAssign (self rhs : Integer T) : Integer T :=
  ⟨T.convert (T.and self.value rhs.value)⟩

/-- Bitwise and `operator&`. -/
def and (lhs rhs : Integer T) : Integer T :=
  let lhs := lhs.andAssign rhs
  lhs

/-- Bitwise or assignment `operator|=`: `value |= rhs.value`. -/
def orAssign (self rhs : Integer T) : Integer T :=
  ⟨T.convert (T.or self.value rhs.value)⟩

/-- Bitwise or `operator|`. -/
def or (lhs rhs : Integer T) : Integer T :=
  let lhs := lhs.orAssign rhs
  lhs

/-- Bitwise xor assignment `operator^=`: `value ^= rhs.value`. -/
def xorAssign (self rhs : Integer T) : Integer T :=
  ⟨T.convert (T.xor self.value rhs.value)⟩

/-- Bitwise xor `operator^`. -/
def xor (lhs rhs : Integer T) : Integer T :=
  let lhs := lhs.xorAssign rhs
  lhs

/-- Left shift assignment `operator<<=`: `value <<= rhs.value`. -/
def shlAssign (self rhs : Integer T) : Integer T :=
  ⟨T.convert (T.shl self.value rhs.value)⟩

/-- Left shift `operator<<`. -/
def shl (lhs rhs : Integer T) : Integer T :=
  let lhs := lhs.shlAssign rhs
  lhs

/-- Right shift assignment `operator>>=`: `value >>= rhs.value`. -/
def shrAssign (self rhs : Integer T) : Integer T :=
  ⟨T.convert (T.shr self.value rhs.value)⟩

/-- Right shift `operator>>`. -/
def shr (lhs rhs : Integer T) : Integer T :=
  let lhs := lhs.shrAssign rhs
  lhs

/-- Prefix increment `operator++()`: `value++`, then `*this`.  The result is
the new state of `*this`, which is also what the returned reference denotes. -/
def preInc (self : Integer T) : Integer T :=
  ⟨T.convert (T.add self.value 1)⟩

/-- Postfix increment `operator++(int)`: copy `*this`, apply the prefix
increment, return the copy.  The pair is (returned value, new state of
`*this`). -/
def postInc (self : Integer T) : Integer T × Integer T :=
  let old := self.copy
  let self := self.preInc
  (old, self)

/-- Defaulted `operator<=>`: three-way comparison of the stored values. -/
def cmp (lhs rhs : Integer T) : Ordering :=
  compare lhs.value rhs.value

/-- The expression `lhs < rhs`, rewritten as `(lhs <=> rhs) < 0`. -/
def lt (lhs rhs : Integer T) : Bool :=
  cmp lhs rhs == .lt

/-- The expression `lhs <= rhs`, rewritten as `(lhs <=> rhs) <= 0`. -/
def le (lhs rhs : Integer T) : Bool :=
  cmp lhs rhs != .gt

/-- The expression `lhs > rhs`, rewritten as `(lhs <=> rhs) > 0`. -/
def gt (lhs rhs : Integer T) : Bool :=
  cmp lhs rhs == .gt

/-- The expression `lhs >= rhs`, rewritten as `(lhs <=> rhs) >= 0`. -/
def ge (lhs rhs : Integer T) : Bool :=
  cmp lhs rhs != .lt

/-- The `operator==` declared implicitly with the defaulted `operator<=>`:
equality of the stored values. -/
def eq (lhs rhs : Integer T) : Bool :=
  lhs.value == rhs.value

/-- The expression `lhs != rhs`, rewritten as `!(lhs == rhs)`. -/
def ne (lhs rhs : Integer T) : Bool :=
  !(eq lhs rhs)

end Integer

/-! ## Objects in storage

The assignment operators compare the addresses of their operands, and a
by-value parameter is an object of its own.  A store maps the address of each
live object to its state. -/

/-- Address of an object. -/
abbrev Addr := Nat

/-- The live objects of type `Integer<I>`, by address. -/
abbrev Store (T : IntType) := Addr → Integer T

/-- The store after the object at `p` is given the state `x`. -/
def Store.write {T : IntType} (s : Store T) (p : Addr) (x : Integer T) : Store T :=
  fun q => if q = p then x else s q

/-- Copy assignment `operator=(self_const_reference rhs)` called on the object
at `self` with `rhs` bound to the object at `rhs`. -/
def Integer.copyAssign {T : IntType} (s : Store T) (self rhs : Addr) : Store T :=
  if self = rhs then s
  else s.write self ⟨(s rhs).value⟩

/-- Move assignment `operator=(Integer&& rhs)`:
`value = std::exchange(rhs.value, 0)` unless `this == &rhs`. -/
def Integer.moveAssign {T : IntType} (s : Store T) (self rhs : Addr) : Store T :=
  if self = rhs then s
  else
    let old := (s rhs).value
    let s := s.write rhs ⟨T.convert 0⟩
    s.write self ⟨old⟩

/-- Move constructor `Integer(Integer&&) = default`, constructing the object
at `self` from the object at `rhs`: the member is initialised from the moved
member of `rhs`, and for a member of integral type that is a copy. -/
def Integer.moveConstruct {T : IntType} (s : Store T) (self rhs : Addr) : Store T :=
  s.write self ⟨(s rhs).value⟩

/-- The binary operators of the class that come with a compound form. -/
inductive BinOp where
  | add | sub | mul | div | mod | and | or | xor | shl | shr
deriving DecidableEq, Repr

/-- The compound-assignment member of an operator: new state of `*this`. -/
def Integer.compound {T : IntType} : BinOp → Integer T → Integer T → Except Fault (Integer T)
  | .add, x, y => pure (x.addAssign y)
  | .sub, x, y => pure (x.subAssign y)
  | .mul, x, y => pure (x.mulAssign y)
  | .div, x, y => x.divAssign y
  | .mod, x, y => x.modAssign y
  | .and, x, y => pure (x.andAssign y)
  | .or, x, y => pure (x.orAssign y)
  | .xor, x, y => pure (x.xorAssign y)
  | .shl, x, y => pure (x.shlAssign y)
  | .shr, x, y => pure (x.shrAssign y)

/-- The non-mutating friend of an operator. -/
def Integer.binary {T : IntType} : BinOp → Integer T → Integer T → Except Fault (Integer T)
  | .add, x, y => pure (x.add y)
  | .sub, x, y => pure (x.sub y)
  | .mul, x, y => pure (x.mul y)
  | .div, x, y => x.div y
  | .mod, x, y => x.mod y
  | .and, x, y => pure (x.and y)
  | .or, x, y => pure (x.or y)
  | .xor, x, y => pure (x.xor y)
  | .shl, x, y => pure (x.shl y)
  | .shr, x, y => pure (x.shr y)

/-- The call `x op= y` on stored objects: `*this` is the object at `self`,
`rhs` is bound to the object at `rhs` (the two may be the same object). -/
def Store.compound {T : IntType} (op : BinOp) (s : Store T) (self rhs : Addr) :
    Except Fault (Store T) := do
  let r ← Integer.compound op (s self) (s rhs)
  pure (s.write self r)

/-- The call `x op y` of a friend `operator op(self lhs, self_const_reference rhs)`
on stored objects: the parameter `lhs` is a new object at `p`, a copy of the
object at `x`; `rhs` is bound to the object at `y`; the body runs `lhs op= rhs`
and returns `lhs`.  The result is the returned value and the final store. -/
def Store.binary {T : IntType} (op : BinOp) (s : Store T) (p x y : Addr) :
    Except Fault (Integer T × Store T) := do
  let s := s.write p (s x).copy
  let s ← Store.compound op s p y
  pure (s p, s)

/-! ## The example program -/

/-- The type `int` on a target where it has `w` bits. -/
def IntType.int (w : Nat) : IntType :=
  ⟨w, true, w⟩

/-- What `main` of `examples/1-simple.cc` observes of `i`: whether the branch
`i > 20` is taken, whether the branch `i == 25` is taken, and the value
printed from `i.get()`. -/
structure Observed where
  greater : Bool
  equal : Bool
  value : Int
deriving DecidableEq, Repr

/-- The function `main` of `examples/1-simple.cc`, for `hk::integer`
(`Integer<int>`) on a target where `int` has `w` bits. -/
def simpleMain (w : Nat) : Observed :=
  let i : Integer (IntType.int w) := ⟨10⟩
  let i := i.addAssign ⟨15⟩
  ⟨i.gt ⟨20⟩, i.eq ⟨25⟩, i.get⟩

/-! ## Sample representations

The exact-width types behind the aliases `hk::int8_t` ... `hk::uint64_t`, on a
target where `int` has 32 bits. -/

/-- The type `std::int8_t`. -/
def IntType.int8 : IntType := ⟨8, true, 32⟩

/-- The type `std::int16_t`. -/
def IntType.int16 : IntType := ⟨16, true, 32⟩

/-- The type `std::int32_t`. -/
def IntType.int32 : IntType := ⟨32, true, 32⟩

/-- The type `std::int64_t`. -/
def IntType.int64 : IntType := ⟨64, true, 32⟩

/-- The type `std::uint8_t`. -/
def IntType.uint8 : IntType := ⟨8, false, 32⟩

/-- The type `std::uint16_t`. -/
def IntType.uint16 : IntType := ⟨16, false, 32⟩

/-- The type `std::uint32_t`. -/
def IntType.uint32 : IntType := ⟨32, false, 32⟩

/-- The type `std::uint64_t`. -/
def IntType.uint64 : IntType := ⟨64, false, 32⟩

/-! ## Unary operators, decrement, accessors and construction -/

/-- Contextual conversion of an integer value to `bool`: true exactly for a
non-zero value. -/
def toBool (a : Int) : Bool :=
  decide (a ≠ 0)

/-- Built-in unary `+a`: the operand after integral promotion. -/
def IntType.pos (T : IntType) (a : Int) : Int :=
  T.promote.convert a

/-- Built-in unary `-a`, evaluated in the promoted type (with the wraparound
of `IntType.add`). -/
def IntType.neg (T : IntType) (a : Int) : Int :=
  T.promote.convert (-a)

/-- Built-in `~a`: the value of the promoted type whose pattern has every bit
of the pattern of the promoted operand flipped. -/
def IntType.not (T : IntType) (a : Int) : Int :=
  T.promote.convert ((T.promote.pattern a ^^^ (2 ^ T.promote.bits - 1) : Nat) : Int)

/-- Prefix decrement `operator--()`: `value--`, then `*this`.  The result is
the new state of `*this`. -/
def Integer.preDec {T : IntType} (self : Integer T) : Integer T :=
  ⟨T.convert (T.sub self.value 1)⟩

/-- Postfix decrement `operator--(int)`: copy `*this`, apply the prefix
decrement, return the copy.  The pair is (returned value, new state of
`*this`). -/
def Integer.postDec {T : IntType} (self : Integer T) : Integer T × Integer T :=
  let old := self.copy
  let self := self.preDec
  (old, self)

/-- Unary plus `operator+() const`: `self{+value}`.  The promoted value is
converted to `I` by the constructor call.  For `I` narrower than `int` the
braces make this a narrowing conversion, which a conforming compiler
diagnoses; where the program is accepted, the conversion is the modular one. -/
def Integer.pos {T : IntType} (self : Integer T) : Integer T :=
  ⟨T.convert (T.pos self.value)⟩

/-- Unary minus `operator-() const`: `self(-value)`. -/
def Integer.neg {T : IntType} (self : Integer T) : Integer T :=
  ⟨T.convert (T.neg self.value)⟩

/-- Bitwise not `operator~() const`: `self{~value}`, with the conversion of
`Integer.pos`. -/
def Integer.not {T : IntType} (self : Integer T) : Integer T :=
  ⟨T.convert (T.not self.value)⟩

/-- Logical not `operator!() const`: `!value`. -/
def Integer.lnot {T : IntType} (self : Integer T) : Bool :=
  !(toBool self.value)

/-- Logical and, the friend `operator&&`: `lhs.value && rhs.value`. -/
def Integer.land {T : IntType} (lhs rhs : Integer T) : Bool :=
  toBool lhs.value && toBool rhs.value

/-- Logical or, the friend `operator||`: `lhs.value || rhs.value`. -/
def Integer.lor {T : IntType} (lhs rhs : Integer T) : Bool :=
  toBool lhs.value || toBool rhs.value

/-- Evaluation on a stored object of a const member function: the member
reads `*this` and has no write, so the store comes back as it was.  The pair
is (result, store after the call). -/
def Store.eval1 {T : IntType} {α : Type} (f : Integer T → α) (s : Store T) (x : Addr) :
    α × Store T :=
  (f (s x), s)

/-- Evaluation on stored objects of a friend function that takes both operands
by reference to const. -/
def Store.eval2 {T : IntType} {α : Type} (f : Integer T → Integer T → α) (s : Store T)
    (x y : Addr) : α × Store T :=
  (f (s x) (s y), s)

/-- The state of an object after an assignment `x.get() = u`: `get()` returns a
reference to the member `value`, and the assignment replaces what it refers
to. -/
def Integer.assignGet {T : IntType} (_self : Integer T) (u : Int) : Integer T :=
  ⟨u⟩

/-- Qualification of the object expression of a member call. -/
inductive Qual where
  | nonConst
  | const
deriving DecidableEq, Repr

/-- A call `x.get()` on an object expression of qualification `q`.  The only
overload of `get` is a non-const member function, so the call is well-formed
on a non-const object expression only; an ill-formed call has no result. -/
def Integer.getCall {T : IntType} (q : Qual) (self : Integer T) : Option Int :=
  match q with
  | .nonConst => some self.get
  | .const => none

/-- Getter `cget() const`: `return get();`, where `*this` is const. -/
def Integer.cget {T : IntType} (self : Integer T) : Option Int :=
  Integer.getCall .const self

/-- Default constructor `Integer() = default` run on the storage at `self`.
The constructor is trivial and the member `value` has no initializer: nothing
is written, and the object starts with what its storage held. -/
def Integer.defaultConstruct {T : IntType} (s : Store T) (_self : Addr) : Store T :=
  s

/-- Value-initialisation `Integer<I>{}` or `Integer<I>()` of the object at
`self`: the default constructor is not user-provided, so the object is
zero-initialised before the default constructor runs. -/
def Integer.valueInit {T : IntType} (s : Store T) (self : Addr) : Store T :=
  Integer.defaultConstruct (s.write self ⟨T.convert 0⟩) self

/-- The value of the type whose bit pattern is `n` (two's complement decoding):
`n` itself, or `n - 2 ^ bits` when the type is signed and the sign bit of `n`
is set. -/
def IntType.ofPattern (T : IntType) (n : Nat) : Int :=
  if T.signed && decide (2 ^ (T.bits - 1) ≤ n) then (n : Int) - 2 ^ T.bits else n

/-! ## Lemmas on conversion and promotion -/

theorem IntType.convert_emod (T : IntType) (v : Int) :
    T.convert v % 2 ^ T.bits = v % 2 ^ T.bits := by
  unfold IntType.convert
  simp only []
  split
  · rw [Int.sub_emod, Int.emod_self, sub_zero, Int.emod_emod, Int.emod_emod]
  · exact Int.emod_emod _ _

theorem IntType.pattern_convert (T : IntType) (v : Int) :
    T.pattern (T.convert v) = T.pattern v := by
  unfold IntType.pattern
  rw [T.convert_emod]

theorem IntType.bits_le_promote (T : IntType) : T.bits ≤ T.promote.bits := by
  unfold IntType.promote
  split
  · exact Nat.le_of_lt (by assumption)
  · exact Nat.le_refl _

/-- Reducing in the promoted type and then in `T` is reducing in `T`. -/
theorem IntType.promote_convert_emod (T : IntType) (r : Int) :
    T.promote.convert r % 2 ^ T.bits = r % 2 ^ T.bits := by
  have hd : ((2 : Int) ^ T.bits) ∣ 2 ^ T.promote.bits :=
    pow_dvd_pow 2 T.bits_le_promote
  rw [← Int.emod_emod_of_dvd (T.promote.convert r) hd, T.promote.convert_emod,
    Int.emod_emod_of_dvd r hd]

theorem IntType.convert_unsigned (T : IntType) (h : T.signed = false) (v : Int) :
    T.convert v = v % 2 ^ T.bits := by
  unfold IntType.convert
  simp [h]

theorem IntType.pattern_cast (T : IntType) (v : Int) :
    ((T.pattern v : Nat) : Int) = v % 2 ^ T.bits := by
  unfold IntType.pattern
  exact Int.toNat_of_nonneg (Int.emod_nonneg v (pow_ne_zero _ (by decide)))

/-- The low `bits` bits of the pattern in the promoted type are the pattern
in `T`. -/
theorem IntType.pattern_promote_mod (T : IntType) (v : Int) :
    T.promote.pattern v % 2 ^ T.bits = T.pattern v := by
  have hd : ((2 : Int) ^ T.bits) ∣ 2 ^ T.promote.bits :=
    pow_dvd_pow 2 T.bits_le_promote
  apply Int.ofNat_inj.mp
  push_cast
  rw [T.promote.pattern_cast, T.pattern_cast, Int.emod_emod_of_dvd v hd]

/-- The stored result of an arithmetic operator with exact result `r`. -/
theorem IntType.pattern_stored (T : IntType) (r : Int) :
    T.pattern (T.convert (T.promote.convert r)) = (r % 2 ^ T.bits).toNat := by
  rw [T.pattern_convert]
  unfold IntType.pattern
  rw [T.promote_convert_emod]

theorem IntType.stored_unsigned (T : IntType) (h : T.signed = false) (r : Int) :
    T.convert (T.promote.convert r) = r % 2 ^ T.bits := by
  rw [T.convert_unsigned h, T.promote_convert_emod]

theorem Nat.and_mod_pow2 (x y w : Nat) :
    (x &&& y) % 2 ^ w = (x % 2 ^ w) &&& (y % 2 ^ w) := by
  apply Nat.eq_of_testBit_eq
  intro i
  simp only [Nat.testBit_mod_two_pow, Nat.testBit_and]
  cases decide (i < w) <;> simp

theorem Nat.or_mod_pow2 (x y w : Nat) :
    (x ||| y) % 2 ^ w = (x % 2 ^ w) ||| (y % 2 ^ w) := by
  apply Nat.eq_of_testBit_eq
  intro i
  simp only [Nat.testBit_mod_two_pow, Nat.testBit_or]
  cases decide (i < w) <;> simp

theorem Nat.xor_mod_pow2 (x y w : Nat) :
    (x ^^^ y) % 2 ^ w = (x % 2 ^ w) ^^^ (y % 2 ^ w) := by
  apply Nat.eq_of_testBit_eq
  intro i
  simp only [Nat.testBit_mod_two_pow, Nat.testBit_xor]
  cases decide (i < w) <;> simp

/-- The stored result of a bitwise operator whose result in the promoted type
has pattern `n`. -/
theorem IntType.pattern_stored_nat (T : IntType) (n : Nat) :
    T.pattern (T.convert (T.promote.convert (n : Int))) = n % 2 ^ T.bits := by
  rw [T.pattern_stored]
  have h : ((n : Int) % 2 ^ T.bits) = ((n % 2 ^ T.bits : Nat) : Int) := by
    push_cast
    rfl
  rw [h, Int.toNat_ofNat]

theorem IntType.convert_zero (T : IntType) : T.convert 0 = 0 := by
  unfold IntType.convert
  have h : ¬ ((2 : Int) ^ (T.bits - 1) ≤ 0) := not_le.mpr (pow_pos (by decide) _)
  simp [h]

theorem Store.write_same {T : IntType} (s : Store T) (p : Addr) (x : Integer T) :
    (s.write p x) p = x := by
  simp [Store.write]

theorem Store.write_other {T : IntType} (s : Store T) (p q : Addr) (x : Integer T)
    (h : q ≠ p) : (s.write p x) q = s q := by
  simp [Store.write, h]

/-- Move assignment between two distinct objects: the destination receives the
value of the source and the source is left holding zero. -/
theorem Integer.moveAssign_distinct {T : IntType} (s : Store T) (d r : Addr) (h : d ≠ r) :
    (Integer.moveAssign s d r) d = s r ∧ (Integer.moveAssign s d r) r = ⟨0⟩ := by
  unfold Integer.moveAssign
  rw [if_neg h]
  refine ⟨?_, ?_⟩
  · simp [Store.write]
  · simp [Store.write, Ne.symm h, T.convert_zero]

/-- Move construction: the new object receives the value of the source and the
source keeps it. -/
theorem Integer.moveConstruct_distinct {T : IntType} (s : Store T) (d r : Addr) (h : d ≠ r) :
    (Integer.moveConstruct s d r) d = s r ∧ (Integer.moveConstruct s d r) r = s r := by
  unfold Integer.moveConstruct
  refine ⟨?_, ?_⟩
  · simp [Store.write]
  · simp [Store.write, Ne.symm h]

theorem IntType.two_pow_bits (T : IntType) (h : 0 < T.bits) :
    (2 : Int) ^ T.bits = 2 * 2 ^ (T.bits - 1) := by
  obtain ⟨k, hk⟩ : ∃ k, T.bits = k + 1 := ⟨T.bits - 1, by omega⟩
  rw [hk, Nat.add_sub_cancel, pow_succ]
  ring

/-- A converted value is a value of the type. -/
theorem IntType.convert_inRange (T : IntType) (h : 0 < T.bits) (v : Int) :
    T.inRange (T.convert v) := by
  have hM := T.two_pow_bits h
  have hH : (0 : Int) < 2 ^ (T.bits - 1) := pow_pos (by decide) _
  have h0 : 0 ≤ v % 2 ^ T.bits := Int.emod_nonneg v (pow_ne_zero _ (by decide))
  have h1 : v % 2 ^ T.bits < 2 ^ T.bits := Int.emod_lt_of_pos v (pow_pos (by decide) _)
  unfold IntType.inRange IntType.minVal IntType.maxVal IntType.convert
  generalize v % 2 ^ T.bits = m at h0 h1
  generalize (2 : Int) ^ T.bits = M at hM h1
  generalize (2 : Int) ^ (T.bits - 1) = H at hM hH
  cases hs : T.signed
  · simp only [Bool.false_and, Bool.false_eq_true, if_false]
    omega
  · by_cases hm : H ≤ m
    · simp only [Bool.true_and, decide_eq_true_eq, hm, if_true]
      omega
    · simp only [Bool.true_and, decide_eq_true_eq, hm, if_false, if_true]
      omega

/-- Two values of a type that are congruent modulo `2 ^ bits` are equal. -/
theorem IntType.eq_of_emod_eq (T : IntType) (h : 0 < T.bits) (x y : Int)
    (hx : T.inRange x) (hy : T.inRange y) (hxy : x % 2 ^ T.bits = y % 2 ^ T.bits) :
    x = y := by
  have hM := T.two_pow_bits h
  have hH : (0 : Int) < 2 ^ (T.bits - 1) := pow_pos (by decide) _
  have hd : ((2 : Int) ^ T.bits) ∣ x - y :=
    Int.dvd_of_emod_eq_zero (Int.emod_eq_emod_iff_emod_sub_eq_zero.mp hxy)
  have habs : |x - y| < 2 ^ T.bits := by
    unfold IntType.inRange IntType.minVal IntType.maxVal at hx hy
    rw [abs_lt]
    generalize (2 : Int) ^ T.bits = M at hM hx hy
    generalize (2 : Int) ^ (T.bits - 1) = H at hM hH hx hy
    cases hs : T.signed <;> simp only [hs, if_true, if_false, Bool.false_eq_true] at hx hy <;>
      omega
  have := Int.eq_zero_of_abs_lt_dvd hd habs
  omega

/-- Conversion leaves a value of the type unchanged. -/
theorem IntType.convert_of_inRange (T : IntType) (h : 0 < T.bits) (v : Int)
    (hv : T.inRange v) : T.convert v = v :=
  T.eq_of_emod_eq h _ _ (T.convert_inRange h v) hv (T.convert_emod v)

/-- A value of a type is a value of the promoted type. -/
theorem IntType.inRange_promote (T : IntType) (v : Int) (hv : T.inRange v) :
    T.promote.inRange v := by
  unfold IntType.promote
  split
  · rename_i hlt
    have h1 : (2 : Int) ^ T.bits ≤ 2 ^ (T.intBits - 1) :=
      pow_le_pow_right₀ (by decide) (by omega)
    have h2 : (2 : Int) ^ (T.bits - 1) ≤ 2 ^ T.bits :=
      pow_le_pow_right₀ (by decide) (by omega)
    have hH : (0 : Int) < 2 ^ (T.bits - 1) := pow_pos (by decide) _
    unfold IntType.inRange IntType.minVal IntType.maxVal at hv ⊢
    simp only [if_true]
    cases hs : T.signed <;> simp only [hs, if_true, if_false, Bool.false_eq_true] at hv <;>
      omega
  · exact hv

/-- The successor of a value, wrapped into the type: the least value after the
greatest one, and `v + 1` otherwise. -/
theorem IntType.stored_succ (T : IntType) (hw : 0 < T.bits) (v : Int) (hv : T.inRange v) :
    T.convert (T.promote.convert (v + 1)) = if v = T.maxVal then T.minVal else v + 1 := by
  have hM := T.two_pow_bits hw
  have hH : (0 : Int) < 2 ^ (T.bits - 1) := pow_pos (by decide) _
  apply T.eq_of_emod_eq hw _ _ (T.convert_inRange hw _)
  · unfold IntType.inRange IntType.minVal IntType.maxVal at hv ⊢
    generalize (2 : Int) ^ T.bits = M at hM hv ⊢
    generalize (2 : Int) ^ (T.bits - 1) = H at hM hH hv ⊢
    cases hs : T.signed <;> simp only [hs, if_true, if_false, Bool.false_eq_true] at hv ⊢ <;>
      split <;> omega
  · rw [T.convert_emod, T.promote_convert_emod]
    split
    · rename_i hmax
      have hsum : v + 1 = T.minVal + 2 ^ T.bits := by
        rw [hmax]
        unfold IntType.minVal IntType.maxVal
        generalize (2 : Int) ^ T.bits = M at hM
        generalize (2 : Int) ^ (T.bits - 1) = H at hM
        cases hs : T.signed <;> simp only [if_true, if_false, Bool.false_eq_true] <;> omega
      rw [hsum, Int.add_emod_self]
    · rfl

theorem Integer.lt_iff {T : IntType} (x y : Integer T) : x.lt y = true ↔ x.value < y.value := by
  unfold Integer.lt Integer.cmp
  rw [← compare_lt_iff_lt]
  cases compare x.value y.value <;> decide

theorem Integer.gt_iff {T : IntType} (x y : Integer T) : x.gt y = true ↔ y.value < x.value := by
  unfold Integer.gt Integer.cmp
  rw [← gt_iff_lt, ← compare_gt_iff_gt]
  cases compare x.value y.value <;> decide

theorem Integer.le_iff {T : IntType} (x y : Integer T) : x.le y = true ↔ x.value ≤ y.value := by
  unfold Integer.le Integer.cmp
  rw [← not_lt, ← gt_iff_lt, ← compare_gt_iff_gt]
  cases compare x.value y.value <;> decide

theorem Integer.ge_iff {T : IntType} (x y : Integer T) : x.ge y = true ↔ y.value ≤ x.value := by
  unfold Integer.ge Integer.cmp
  rw [← not_lt, ← compare_lt_iff_lt]
  cases compare x.value y.value <;> decide

theorem Integer.eq_iff {T : IntType} (x y : Integer T) : x.eq y = true ↔ x.value = y.value := by
  simp [Integer.eq]

theorem Integer.ne_iff {T : IntType} (x y : Integer T) : x.ne y = true ↔ x.value ≠ y.value := by
  simp [Integer.ne, Integer.eq]

/-- For an unsigned type, a value is its own pattern. -/
theorem IntType.pattern_unsigned (T : IntType) (hs : T.signed = false) (v : Int)
    (hv : T.inRange v) : ((T.pattern v : Nat) : Int) = v := by
  rw [T.pattern_cast]
  unfold IntType.inRange IntType.minVal IntType.maxVal at hv
  simp only [hs, if_false, Bool.false_eq_true] at hv
  exact Int.emod_eq_of_lt hv.1 (by omega)

/-- For a signed type, the pattern with the sign bit flipped is the value
offset by `2 ^ (bits - 1)`. -/
theorem IntType.pattern_signed (T : IntType) (hw : 0 < T.bits) (hs : T.signed = true) (v : Int)
    (hv : T.inRange v) :
    (((T.pattern v + 2 ^ (T.bits - 1)) % 2 ^ T.bits : Nat) : Int) = v + 2 ^ (T.bits - 1) := by
  have hM := T.two_pow_bits hw
  push_cast
  rw [T.pattern_cast, Int.emod_add_emod]
  unfold IntType.inRange IntType.minVal IntType.maxVal at hv
  simp only [hs, if_true] at hv
  exact Int.emod_eq_of_lt (by omega) (by omega)

theorem Store.write_write {T : IntType} (s : Store T) (p : Addr) (a b : Integer T) :
    (s.write p a).write p b = s.write p b := by
  funext q
  unfold Store.write
  split <;> rfl

theorem Integer.binary_eq_compound {T : IntType} (op : BinOp) (a b : Integer T) :
    Integer.binary op a b = Integer.compound op a.copy b := by
  cases op
  case add => rfl
  case sub => rfl
  case mul => rfl
  case and => rfl
  case or => rfl
  case xor => rfl
  case div =>
    show Integer.div a b = Integer.divAssign a b
    unfold Integer.div
    cases Integer.divAssign a b <;> rfl
  case mod =>
    show Integer.mod a b = Integer.modAssign a b
    unfold Integer.mod
    cases Integer.modAssign a b <;> rfl
  case shl => rfl
  case shr => rfl

/-- The call of a friend operator computes the compound form on a copy of the
left operand and changes the store only at the parameter. -/
theorem Store.binary_eq {T : IntType} (op : BinOp) (s : Store T) (p x y : Addr) (hy : p ≠ y) :
    Store.binary op s p x y
      = (Integer.compound op (s x).copy (s y)).map (fun r => (r, s.write p r)) := by
  have h1 : (s.write p (s x).copy) p = (s x).copy := s.write_same p _
  have h2 : (s.write p (s x).copy) y = s y := s.write_other p y _ (Ne.symm hy)
  unfold Store.binary Store.compound
  simp only [h1, h2]
  cases Integer.compound op (s x).copy (s y) with
  | error e => rfl
  | ok r =>
    simp only [bind, Except.bind, pure, Except.pure, Except.map, Store.write_write,
      Store.write_same]

/-- An arithmetic result that is a value of the promoted type is computed
exactly: reduction modulo `2 ^ bits` only acts on results outside the promoted
type. -/
theorem IntType.promote_convert_exact (T : IntType) (hw : 0 < T.promote.bits) (r : Int)
    (hr : T.promote.inRange r) : T.promote.convert r = r :=
  T.promote.convert_of_inRange hw r hr

/-- The getter `cget()` has no well-formed call, whatever the stored value. -/
theorem Integer.cget_none {T : IntType} (x : Integer T) : x.cget = none :=
  rfl

theorem Store.write_self {T : IntType} (s : Store T) (p : Addr) : s.write p (s p) = s := by
  funext q
  unfold Store.write
  split
  · rename_i h
    rw [h]
  · rfl

/-- Copy assignment gives the left-hand side the state of the right-hand side
and changes nothing else. -/
theorem Integer.copyAssign_eq {T : IntType} (s : Store T) (x y : Addr) :
    Integer.copyAssign s x y = s.write x (s y) := by
  unfold Integer.copyAssign
  split
  · rename_i h
    rw [h, s.write_self]
  · rfl

/-- The stored result of an operation with exact result `r` is the value of
the type congruent to `r`. -/
theorem IntType.stored_eq (T : IntType) (hw : 0 < T.bits) (r t : Int) (ht : T.inRange t)
    (h : r % 2 ^ T.bits = t % 2 ^ T.bits) : T.convert (T.promote.convert r) = t :=
  T.eq_of_emod_eq hw _ _ (T.convert_inRange hw _) ht
    (by rw [T.convert_emod, T.promote_convert_emod, h])

/-- Conversion sends a multiple of `2 ^ bits` to zero. -/
theorem IntType.convert_eq_zero (T : IntType) (x : Int) (h : x % 2 ^ T.bits = 0) :
    T.convert x = 0 := by
  have hp : ¬ ((2 : Int) ^ (T.bits - 1) ≤ 0) := not_le.mpr (pow_pos (by decide) _)
  unfold IntType.convert
  simp only [h]
  simp [hp]

/-- A stored result that is a multiple of `2 ^ bits` is zero. -/
theorem IntType.stored_zero (T : IntType) (r : Int) (h : r % 2 ^ T.bits = 0) :
    T.convert (T.promote.convert r) = 0 :=
  T.convert_eq_zero _ (by rw [T.promote_convert_emod, h])

theorem IntType.pattern_lt (T : IntType) (v : Int) : T.pattern v < 2 ^ T.bits := by
  apply Int.ofNat_lt.mp
  rw [T.pattern_cast]
  push_cast
  exact Int.emod_lt_of_pos v (pow_pos (by decide) _)

/-- Two values of a type with the same pattern are equal. -/
theorem IntType.eq_of_pattern_eq (T : IntType) (hw : 0 < T.bits) (x y : Int)
    (hx : T.inRange x) (hy : T.inRange y) (h : T.pattern x = T.pattern y) : x = y := by
  apply T.eq_of_emod_eq hw x y hx hy
  rw [← T.pattern_cast, ← T.pattern_cast, h]

/-- The predecessor of a value, wrapped into the type: the greatest value
before the least one, and `v - 1` otherwise. -/
theorem IntType.stored_pred (T : IntType) (hw : 0 < T.bits) (v : Int) (hv : T.inRange v) :
    T.convert (T.promote.convert (v - 1)) = if v = T.minVal then T.maxVal else v - 1 := by
  have hM := T.two_pow_bits hw
  have hH : (0 : Int) < 2 ^ (T.bits - 1) := pow_pos (by decide) _
  apply T.stored_eq hw
  · unfold IntType.inRange IntType.minVal IntType.maxVal at hv ⊢
    generalize (2 : Int) ^ T.bits = M at hM hv ⊢
    generalize (2 : Int) ^ (T.bits - 1) = H at hM hH hv ⊢
    cases hs : T.signed <;> simp only [hs, if_true, if_false, Bool.false_eq_true] at hv ⊢ <;>
      split <;> omega
  · split
    · rename_i hmin
      have hsum : T.maxVal = v - 1 + 2 ^ T.bits := by
        rw [hmin]
        unfold IntType.minVal IntType.maxVal
        generalize (2 : Int) ^ T.bits = M at hM
        generalize (2 : Int) ^ (T.bits - 1) = H at hM
        cases hs : T.signed <;> simp only [if_true, if_false, Bool.false_eq_true] <;> omega
      rw [hsum, Int.add_emod_self]
    · rfl

/-- The stored negation of a value: the value of the type congruent to `-v`. -/
theorem IntType.stored_neg (T : IntType) (hw : 0 < T.bits) (v : Int) (hv : T.inRange v) :
    T.convert (T.promote.convert (-v)) =
      if T.signed then (if v = T.minVal then T.minVal else -v)
      else (if v = 0 then 0 else 2 ^ T.bits - v) := by
  have hM := T.two_pow_bits hw
  have hH : (0 : Int) < 2 ^ (T.bits - 1) := pow_pos (by decide) _
  apply T.stored_eq hw
  · unfold IntType.inRange IntType.minVal IntType.maxVal at hv ⊢
    generalize (2 : Int) ^ T.bits = M at hM hv ⊢
    generalize (2 : Int) ^ (T.bits - 1) = H at hM hH hv ⊢
    cases hs : T.signed <;> simp only [hs, if_true, if_false, Bool.false_eq_true] at hv ⊢ <;>
      split <;> omega
  · cases hs : T.signed
    · simp only [Bool.false_eq_true, if_false]
      split
      · rename_i h0
        rw [h0]
        rfl
      · have : (2 : Int) ^ T.bits - v = -v + 2 ^ T.bits := by ring
        rw [this, Int.add_emod_self]
    · simp only [if_true]
      split
      · rename_i hmin
        have hneg : -v = T.minVal + 2 ^ T.bits := by
          rw [hmin]
          unfold IntType.minVal
          simp only [hs, if_true]
          omega
        rw [hneg, Int.add_emod_self]
      · rfl

theorem Nat.mask_mod_pow2 (w p : Nat) (h : w ≤ p) : (2 ^ p - 1) % 2 ^ w = 2 ^ w - 1 := by
  apply Nat.eq_of_testBit_eq
  intro i
  rw [Nat.testBit_mod_two_pow, Nat.testBit_two_pow_sub_one, Nat.testBit_two_pow_sub_one]
  by_cases hi : i < w
  · have hp : i < p := by omega
    simp [hi, hp]
  · simp [hi]

theorem Nat.testBit_of_lt_pow2 (x w i : Nat) (hx : x < 2 ^ w) (hi : w ≤ i) :
    x.testBit i = false :=
  Nat.testBit_eq_false_of_lt (Nat.lt_of_lt_of_le hx (Nat.pow_le_pow_right (by decide) hi))

/-- Exclusive or with the all-ones mask flips every bit below the width and
sets none above it. -/
theorem Nat.xor_mask_testBit (x w i : Nat) (hx : x < 2 ^ w) :
    (x ^^^ (2 ^ w - 1)).testBit i = (decide (i < w) && !x.testBit i) := by
  rw [Nat.testBit_xor, Nat.testBit_two_pow_sub_one]
  by_cases hi : i < w
  · simp [hi]
  · rw [Nat.testBit_of_lt_pow2 x w i hx (by omega)]
    simp [hi]

theorem Nat.xor_mask_eq (x w : Nat) (hx : x < 2 ^ w) : x ^^^ (2 ^ w - 1) = 2 ^ w - 1 - x := by
  apply Nat.eq_of_testBit_eq
  intro i
  have h : 2 ^ w - 1 - x = 2 ^ w - (x + 1) := by omega
  rw [Nat.xor_mask_testBit x w i hx, h, Nat.testBit_two_pow_sub_succ hx]

theorem Nat.and_xor_mask (x w : Nat) (hx : x < 2 ^ w) : x &&& (x ^^^ (2 ^ w - 1)) = 0 := by
  apply Nat.eq_of_testBit_eq
  intro i
  rw [Nat.testBit_and, Nat.xor_mask_testBit x w i hx, Nat.zero_testBit]
  cases x.testBit i <;> simp

theorem Nat.xor_mask_twice (x m : Nat) : (x ^^^ m) ^^^ m = x := by
  rw [Nat.xor_assoc, Nat.xor_self, Nat.xor_zero]

/-- The pattern of the stored complement is the pattern of the operand with
every bit below the width flipped. -/
theorem IntType.pattern_not (T : IntType) (v : Int) :
    T.pattern (T.convert (T.not v)) = T.pattern v ^^^ (2 ^ T.bits - 1) := by
  unfold IntType.not
  rw [T.pattern_stored_nat, Nat.xor_mod_pow2, T.pattern_promote_mod,
    Nat.mask_mod_pow2 _ _ T.bits_le_promote]

theorem IntType.pattern_and (T : IntType) (a b : Int) :
    T.pattern (T.convert (T.and a b)) = T.pattern a &&& T.pattern b := by
  unfold IntType.and
  rw [T.pattern_stored_nat, Nat.and_mod_pow2, T.pattern_promote_mod, T.pattern_promote_mod]

/-- Conversion sends a value with the all-zero pattern to zero. -/
theorem IntType.convert_of_pattern_zero (T : IntType) (x : Int) (h : T.pattern x = 0) :
    T.convert x = 0 := by
  apply T.convert_eq_zero
  rw [← T.pattern_cast, h]
  rfl

theorem Int.natAbs_tmod_eq (a b : Int) : (a.tmod b).natAbs = a.natAbs % b.natAbs := by
  cases a <;> cases b <;> simp [Int.tmod, Int.natAbs_neg] <;> rfl

theorem Int.tmod_nonpos_of_nonpos (a b : Int) (ha : a ≤ 0) : a.tmod b ≤ 0 := by
  have h := Int.tmod_nonneg b (a := -a) (by omega)
  have h2 : (-a).tmod b = -(a.tmod b) := by
    rw [Int.tmod_def, Int.tmod_def, Int.neg_tdiv]
    ring
  omega

/-- The truncated quotient of two values of a type is a value of the type,
unless it is the least value of a signed type divided by -1. -/
theorem IntType.tdiv_inRange (T : IntType) (a b : Int) (ha : T.inRange a) (hb : T.inRange b)
    (hb0 : b ≠ 0) (hex : ¬ (T.signed = true ∧ a = T.minVal ∧ b = -1)) :
    T.inRange (a.tdiv b) := by
  have hH : (0 : Int) < 2 ^ (T.bits - 1) := pow_pos (by decide) _
  have hq : (a.tdiv b).natAbs = a.natAbs / b.natAbs := Int.natAbs_tdiv a b
  have hle : a.natAbs / b.natAbs ≤ a.natAbs := Nat.div_le_self _ _
  unfold IntType.inRange IntType.minVal IntType.maxVal at ha hb ⊢
  unfold IntType.minVal at hex
  cases hs : T.signed
  · simp only [hs, if_false, Bool.false_eq_true] at ha hb ⊢
    have h0 : 0 ≤ a.tdiv b := Int.tdiv_nonneg ha.1 hb.1
    omega
  · simp only [hs, if_true, true_and] at ha hb hex ⊢
    generalize (2 : Int) ^ (T.bits - 1) = H at hH ha hb hex ⊢
    by_cases hmin : a = -H
    · have hb1 : b ≠ -1 := fun h => hex ⟨hmin, h⟩
      by_cases hone : b = 1
      · rw [hone, Int.tdiv_one]
        omega
      · have h2 : 2 ≤ b.natAbs := by omega
        have hhalf : a.natAbs / b.natAbs ≤ a.natAbs / 2 :=
          Nat.div_le_div_left h2 (by decide)
        omega
    · omega

/-- The remainder of the truncated division of two values of a type is a value
of the type. -/
theorem IntType.tmod_inRange (T : IntType) (a b : Int) (ha : T.inRange a) :
    T.inRange (a.tmod b) := by
  have hH : (0 : Int) < 2 ^ (T.bits - 1) := pow_pos (by decide) _
  have hr : (a.tmod b).natAbs = a.natAbs % b.natAbs := Int.natAbs_tmod_eq a b
  have hle : a.natAbs % b.natAbs ≤ a.natAbs := Nat.mod_le _ _
  have hpos : 0 ≤ a → 0 ≤ a.tmod b := Int.tmod_nonneg b
  have hneg : a ≤ 0 → a.tmod b ≤ 0 := Int.tmod_nonpos_of_nonpos a b
  unfold IntType.inRange IntType.minVal IntType.maxVal at ha ⊢
  cases hs : T.signed <;> simp only [hs, if_true, if_false, Bool.false_eq_true] at ha ⊢ <;>
    omega

theorem IntType.promote_bits (T : IntType) :
    T.promote.bits = if T.bits < T.intBits then T.intBits else T.bits := by
  unfold IntType.promote
  split <;> rfl

/-- Decoding a pattern below `2 ^ bits` gives a value of the type. -/
theorem IntType.ofPattern_inRange (T : IntType) (hw : 0 < T.bits) (n : Nat)
    (hn : n < 2 ^ T.bits) : T.inRange (T.ofPattern n) := by
  have hM := T.two_pow_bits hw
  have hH : (0 : Int) < 2 ^ (T.bits - 1) := pow_pos (by decide) _
  have hn2 : (n : Int) < 2 ^ T.bits := by exact_mod_cast hn
  have hle : ((2 : Nat) ^ (T.bits - 1) ≤ n) ↔ ((2 : Int) ^ (T.bits - 1) ≤ (n : Int)) := by
    constructor
    · intro h
      exact_mod_cast h
    · intro h
      exact_mod_cast h
  unfold IntType.inRange IntType.minVal IntType.maxVal IntType.ofPattern
  generalize (2 : Int) ^ T.bits = M at hM hn2 ⊢
  cases hs : T.signed
  · simp only [Bool.false_and, Bool.false_eq_true, if_false]
    omega
  · by_cases hc : (2 : Nat) ^ (T.bits - 1) ≤ n
    · have hc2 := hle.mp hc
      simp only [Bool.true_and, decide_eq_true_eq, hc, if_true]
      omega
    · have hc2 : ¬ ((2 : Int) ^ (T.bits - 1) ≤ (n : Int)) := fun h => hc (hle.mpr h)
      simp only [Bool.true_and, decide_eq_true_eq, hc, if_false, if_true]
      omega

/-- Decoding a pattern below `2 ^ bits` gives a value with that pattern. -/
theorem IntType.pattern_ofPattern (T : IntType) (n : Nat) (hn : n < 2 ^ T.bits) :
    T.pattern (T.ofPattern n) = n := by
  have hn2 : (n : Int) < 2 ^ T.bits := by exact_mod_cast hn
  have h0 : (0 : Int) ≤ n := Int.ofNat_nonneg n
  have hmod : (n : Int) % 2 ^ T.bits = n := Int.emod_eq_of_lt h0 hn2
  apply Int.ofNat_inj.mp
  rw [T.pattern_cast]
  unfold IntType.ofPattern
  split
  · rw [Int.sub_emod, Int.emod_self, sub_zero, Int.emod_emod, hmod]
  · exact hmod

/-- A value of a type is the decoding of its pattern. -/
theorem IntType.eq_ofPattern (T : IntType) (hw : 0 < T.bits) (v : Int) (hv : T.inRange v) :
    v = T.ofPattern (T.pattern v) :=
  T.eq_of_pattern_eq hw v _ hv (T.ofPattern_inRange hw _ (T.pattern_lt v))
    (T.pattern_ofPattern _ (T.pattern_lt v)).symm

/-- Conversion stores the decoding of the pattern of its argument. -/
theorem IntType.convert_eq_ofPattern (T : IntType) (hw : 0 < T.bits) (v : Int) :
    T.convert v = T.ofPattern (T.pattern v) := by
  rw [T.eq_ofPattern hw (T.convert v) (T.convert_inRange hw v), T.pattern_convert]

/-- An arithmetic right shift of a value of a type is a value of the type. -/
theorem IntType.fdiv_inRange (T : IntType) (a : Int) (ha : T.inRange a) (k : Nat) :
    T.inRange (Int.fdiv a (2 ^ k)) := by
  have hd : (0 : Int) < 2 ^ k := pow_pos (by decide) _
  have hH : (0 : Int) < 2 ^ (T.bits - 1) := pow_pos (by decide) _
  rw [Int.fdiv_eq_ediv a (le_of_lt hd)]
  have hpos : 0 ≤ a → 0 ≤ a / 2 ^ k ∧ a / 2 ^ k ≤ a :=
    fun h => ⟨Int.ediv_nonneg h (le_of_lt hd), Int.ediv_le_self _ h⟩
  have hneg : a < 0 → a ≤ a / 2 ^ k ∧ a / 2 ^ k < 0 := by
    intro h
    refine ⟨Int.le_ediv_of_mul_le hd ?_, Int.ediv_neg' h hd⟩
    nlinarith
  unfold IntType.inRange IntType.minVal IntType.maxVal at ha ⊢
  generalize a / 2 ^ k = q at hpos hneg ⊢
  cases hs : T.signed <;> simp only [hs, if_true, if_false, Bool.false_eq_true] at ha ⊢ <;>
    omega

/-- The count of a shift is the right operand reduced modulo the width of the
promoted left operand. -/
theorem IntType.shiftCount_eq (T : IntType) (b : Int) (k : Nat)
    (hk : (k : Int) = b % ((if T.bits < T.intBits then T.intBits else T.bits : Nat) : Int)) :
    T.shiftCount b = k := by
  unfold IntType.shiftCount
  rw [T.promote_bits, ← hk, Int.toNat_natCast]

theorem IntType.pattern_or (T : IntType) (a b : Int) :
    T.pattern (T.convert (T.or a b)) = T.pattern a ||| T.pattern b := by
  unfold IntType.or
  rw [T.pattern_stored_nat, Nat.or_mod_pow2, T.pattern_promote_mod, T.pattern_promote_mod]

theorem IntType.pattern_xor (T : IntType) (a b : Int) :
    T.pattern (T.convert (T.xor a b)) = T.pattern a ^^^ T.pattern b := by
  unfold IntType.xor
  rw [T.pattern_stored_nat, Nat.xor_mod_pow2, T.pattern_promote_mod, T.pattern_promote_mod]

theorem IntType.ofPattern_zero (T : IntType) : T.ofPattern 0 = 0 := by
  have h : ¬ ((2 : Nat) ^ (T.bits - 1) ≤ 0) := not_le.mpr (pow_pos (by decide) _)
  unfold IntType.ofPattern
  simp [h]

/-- A stored result is the decoding of its pattern. -/
theorem IntType.convert_eq_of_pattern (T : IntType) (hw : 0 < T.bits) (x : Int) (n : Nat)
    (h : T.pattern (T.convert x) = n) : T.convert x = T.ofPattern n := by
  rw [T.convert_eq_ofPattern hw x, ← T.pattern_convert, h]

/-! ## The claims -/

/-- C1: for every representation and all operands, the value stored by the
wrapper's `+`, `-` and `*` has the low `bits` bits of the exact sum,
difference and product, which are also the low bits of the pattern of the
built-in result; the compound forms `+=`, `-=`, `*=` leave the same state; and
for an unsigned representation the stored value is the exact result modulo
`2 ^ bits`. -/
theorem arithmetic_matches_native (T : IntType) (a b : Int) :
    (T.pattern (Integer.add (⟨a⟩ : Integer T) ⟨b⟩).value = ((a + b) % 2 ^ T.bits).toNat ∧
      T.pattern (Integer.sub (⟨a⟩ : Integer T) ⟨b⟩).value = ((a - b) % 2 ^ T.bits).toNat ∧
      T.pattern (Integer.mul (⟨a⟩ : Integer T) ⟨b⟩).value = ((a * b) % 2 ^ T.bits).toNat) ∧
    (T.pattern (Integer.add (⟨a⟩ : Integer T) ⟨b⟩).value
        = T.promote.pattern (T.add a b) % 2 ^ T.bits ∧
      T.pattern (Integer.sub (⟨a⟩ : Integer T) ⟨b⟩).value
        = T.promote.pattern (T.sub a b) % 2 ^ T.bits ∧
      T.pattern (Integer.mul (⟨a⟩ : Integer T) ⟨b⟩).value
        = T.promote.pattern (T.mul a b) % 2 ^ T.bits) ∧
    (Integer.addAssign (⟨a⟩ : Integer T) ⟨b⟩ = Integer.add ⟨a⟩ ⟨b⟩ ∧
      Integer.subAssign (⟨a⟩ : Integer T) ⟨b⟩ = Integer.sub ⟨a⟩ ⟨b⟩ ∧
      Integer.mulAssign (⟨a⟩ : Integer T) ⟨b⟩ = Integer.mul ⟨a⟩ ⟨b⟩) ∧
    ((Integer.add (⟨a⟩ : Integer ⟨T.bits, false, T.intBits⟩) ⟨b⟩).value = (a + b) % 2 ^ T.bits ∧
      (Integer.sub (⟨a⟩ : Integer ⟨T.bits, false, T.intBits⟩) ⟨b⟩).value = (a - b) % 2 ^ T.bits ∧
      (Integer.mul (⟨a⟩ : Integer ⟨T.bits, false, T.intBits⟩) ⟨b⟩).value = (a * b) % 2 ^ T.bits) := by
  refine ⟨⟨?_, ?_, ?_⟩, ⟨?_, ?_, ?_⟩, ⟨rfl, rfl, rfl⟩, ⟨?_, ?_, ?_⟩⟩
  · exact T.pattern_stored (a + b)
  · exact T.pattern_stored (a - b)
  · exact T.pattern_stored (a * b)
  · rw [T.pattern_promote_mod]; exact T.pattern_convert _
  · rw [T.pattern_promote_mod]; exact T.pattern_convert _
  · rw [T.pattern_promote_mod]; exact T.pattern_convert _
  · exact IntType.stored_unsigned ⟨T.bits, false, T.intBits⟩ rfl (a + b)
  · exact IntType.stored_unsigned ⟨T.bits, false, T.intBits⟩ rfl (a - b)
  · exact IntType.stored_unsigned ⟨T.bits, false, T.intBits⟩ rfl (a * b)

/-- C2: for every representation, every value `a` of it and every right operand
`b`, the wrapper's `<<` and `>>` return a value, whatever the count.  With `k`
the count `b` reduced modulo the width of the promoted left operand (`b` itself
for a count within that width), `wrapper(a) << wrapper(b)` stores the value of
`T` whose pattern is the low `bits` bits of `a * 2 ^ k`, and
`wrapper(a) >> wrapper(b)` stores the floor of `a / 2 ^ k`; both have the low
`bits` bits of the pattern of the built-in result, and the compound forms
`<<=`, `>>=` leave the same state. -/
theorem shifts_match_native (T : IntType) (a b : Int) (k : Nat) (hw : 0 < T.bits)
    (ha : T.inRange a)
    (hk : (k : Int) = b % ((if T.bits < T.intBits then T.intBits else T.bits : Nat) : Int)) :
    (T.pattern (Integer.shl (⟨a⟩ : Integer T) ⟨b⟩).value = ((a * 2 ^ k) % 2 ^ T.bits).toNat ∧
      T.inRange (Integer.shl (⟨a⟩ : Integer T) ⟨b⟩).value ∧
      (Integer.shl (⟨a⟩ : Integer T) ⟨b⟩).value
        = T.ofPattern ((a * 2 ^ k) % 2 ^ T.bits).toNat) ∧
    ((Integer.shr (⟨a⟩ : Integer T) ⟨b⟩).value = Int.fdiv a (2 ^ k) ∧
      T.inRange (Integer.shr (⟨a⟩ : Integer T) ⟨b⟩).value ∧
      T.pattern (Integer.shr (⟨a⟩ : Integer T) ⟨b⟩).value
        = ((Int.fdiv a (2 ^ k)) % 2 ^ T.bits).toNat) ∧
    (T.pattern (Integer.shl (⟨a⟩ : Integer T) ⟨b⟩).value
        = T.promote.pattern (T.shl a b) % 2 ^ T.bits ∧
      T.pattern (Integer.shr (⟨a⟩ : Integer T) ⟨b⟩).value
        = T.promote.pattern (T.shr a b) % 2 ^ T.bits) ∧
    (Integer.shlAssign (⟨a⟩ : Integer T) ⟨b⟩ = Integer.shl ⟨a⟩ ⟨b⟩ ∧
      Integer.shrAssign (⟨a⟩ : Integer T) ⟨b⟩ = Integer.shr ⟨a⟩ ⟨b⟩) ∧
    (0 ≤ b → b < ((if T.bits < T.intBits then T.intBits else T.bits : Nat) : Int) →
      k = b.toNat) := by
  have hc : T.shiftCount b = k := T.shiftCount_eq b k hk
  have hl : (Integer.shl (⟨a⟩ : Integer T) ⟨b⟩).value
      = T.convert (T.promote.convert (a * 2 ^ k)) := by
    show T.convert (T.promote.convert (a * 2 ^ T.shiftCount b)) = _
    rw [hc]
  have hr : (Integer.shr (⟨a⟩ : Integer T) ⟨b⟩).value = Int.fdiv a (2 ^ k) := by
    show T.convert (Int.fdiv a (2 ^ T.shiftCount b)) = _
    rw [hc, T.convert_of_inRange hw _ (T.fdiv_inRange a ha k)]
  have hlp : T.pattern (Integer.shl (⟨a⟩ : Integer T) ⟨b⟩).value
      = ((a * 2 ^ k) % 2 ^ T.bits).toNat := by
    rw [hl, T.pattern_stored]
  refine ⟨⟨hlp, ?_, ?_⟩, ⟨hr, ?_, ?_⟩, ⟨?_, ?_⟩, ⟨rfl, rfl⟩, ?_⟩
  · rw [hl]
    exact T.convert_inRange hw _
  · rw [hl]
    apply T.convert_eq_of_pattern hw
    rw [T.pattern_stored]
  · rw [hr]
    exact T.fdiv_inRange a ha k
  · rw [hr]
    rfl
  · rw [T.pattern_promote_mod]
    exact T.pattern_convert _
  · rw [T.pattern_promote_mod]
    exact T.pattern_convert _
  · intro h0 h1
    rw [Int.emod_eq_of_lt h0 h1] at hk
    rw [← hk, Int.toNat_natCast]

/-- C2, at `std::int8_t` holding 3 with count 38: on a target with 32-bit
`int` the count is 6, and `3 << 38` stores -64 (pattern 11000000) while
`3 >> 38` stores 0.  Further evaluations: `int8 1 << 8 = 0`,
`int32 1 << 32 = 1`, `int32 -8 >> 32 = -8`, `uint8 200 >> 35 = 25`. -/
theorem shifts_match_native_witness :
    (0 < IntType.int8.bits ∧ IntType.int8.inRange 3 ∧
      ((6 : Nat) : Int) = 38 % ((if IntType.int8.bits < IntType.int8.intBits
        then IntType.int8.intBits else IntType.int8.bits : Nat) : Int)) ∧
    ((Integer.shl (⟨3⟩ : Integer IntType.int8) ⟨38⟩).value
        = IntType.int8.ofPattern (((3 : Int) * 2 ^ 6) % 2 ^ IntType.int8.bits).toNat ∧
      (Integer.shr (⟨3⟩ : Integer IntType.int8) ⟨38⟩).value = Int.fdiv 3 (2 ^ 6)) ∧
    (Integer.shl (⟨3⟩ : Integer IntType.int8) ⟨38⟩ = ⟨-64⟩ ∧
      Integer.shr (⟨3⟩ : Integer IntType.int8) ⟨38⟩ = ⟨0⟩ ∧
      Integer.shl (⟨1⟩ : Integer IntType.int8) ⟨8⟩ = ⟨0⟩ ∧
      Integer.shl (⟨1⟩ : Integer IntType.int32) ⟨32⟩ = ⟨1⟩ ∧
      Integer.shr (⟨-8⟩ : Integer IntType.int32) ⟨32⟩ = ⟨-8⟩ ∧
      Integer.shr (⟨200⟩ : Integer IntType.uint8) ⟨35⟩ = ⟨25⟩ ∧
      Integer.shr (⟨-128⟩ : Integer IntType.int8) ⟨3⟩ = ⟨-16⟩) :=
  ⟨⟨by decide, by decide, by decide⟩,
    ⟨(shifts_match_native IntType.int8 3 38 6 (by decide) (by decide) (by decide)).1.2.2,
      (shifts_match_native IntType.int8 3 38 6 (by decide) (by decide) (by decide)).2.1.1⟩,
    by decide⟩

/-- C3: for every representation, every value `a` of it and every right operand
`b` (the values of the representation among them), the wrapper's
`&`, `|` and `^` store exactly the value of `T` whose bit pattern is the
bitwise AND, OR and XOR of the bit patterns of `a` and `b`: the pattern of the
stored value is that combination, the stored value is a value of `T`, and it
is the two's complement decoding of the combined pattern (so `x & x` and
`x | x` are `x` and `x ^ x` is zero); the compound forms `&=`, `|=`, `^=`
leave the same state. -/
theorem bitwise_matches_patterns (T : IntType) (a b : Int) (hw : 0 < T.bits)
    (ha : T.inRange a) :
    (T.pattern (Integer.and (⟨a⟩ : Integer T) ⟨b⟩).value = T.pattern a &&& T.pattern b ∧
      T.pattern (Integer.or (⟨a⟩ : Integer T) ⟨b⟩).value = T.pattern a ||| T.pattern b ∧
      T.pattern (Integer.xor (⟨a⟩ : Integer T) ⟨b⟩).value = T.pattern a ^^^ T.pattern b) ∧
    (T.inRange (Integer.and (⟨a⟩ : Integer T) ⟨b⟩).value ∧
      T.inRange (Integer.or (⟨a⟩ : Integer T) ⟨b⟩).value ∧
      T.inRange (Integer.xor (⟨a⟩ : Integer T) ⟨b⟩).value) ∧
    ((Integer.and (⟨a⟩ : Integer T) ⟨b⟩).value = T.ofPattern (T.pattern a &&& T.pattern b) ∧
      (Integer.or (⟨a⟩ : Integer T) ⟨b⟩).value = T.ofPattern (T.pattern a ||| T.pattern b) ∧
      (Integer.xor (⟨a⟩ : Integer T) ⟨b⟩).value = T.ofPattern (T.pattern a ^^^ T.pattern b)) ∧
    (Integer.and (⟨a⟩ : Integer T) ⟨a⟩ = ⟨a⟩ ∧ Integer.or (⟨a⟩ : Integer T) ⟨a⟩ = ⟨a⟩ ∧
      Integer.xor (⟨a⟩ : Integer T) ⟨a⟩ = ⟨0⟩) ∧
    (Integer.andAssign (⟨a⟩ : Integer T) ⟨b⟩ = Integer.and ⟨a⟩ ⟨b⟩ ∧
      Integer.orAssign (⟨a⟩ : Integer T) ⟨b⟩ = Integer.or ⟨a⟩ ⟨b⟩ ∧
      Integer.xorAssign (⟨a⟩ : Integer T) ⟨b⟩ = Integer.xor ⟨a⟩ ⟨b⟩) := by
  refine ⟨⟨T.pattern_and a b, T.pattern_or a b, T.pattern_xor a b⟩,
    ⟨T.convert_inRange hw _, T.convert_inRange hw _, T.convert_inRange hw _⟩,
    ⟨T.convert_eq_of_pattern hw _ _ (T.pattern_and a b),
      T.convert_eq_of_pattern hw _ _ (T.pattern_or a b),
      T.convert_eq_of_pattern hw _ _ (T.pattern_xor a b)⟩,
    ⟨?_, ?_, ?_⟩, rfl, rfl, rfl⟩
  · show (⟨T.convert (T.and a a)⟩ : Integer T) = ⟨a⟩
    rw [T.convert_eq_of_pattern hw _ _ (T.pattern_and a a), Nat.and_self,
      ← T.eq_ofPattern hw a ha]
  · show (⟨T.convert (T.or a a)⟩ : Integer T) = ⟨a⟩
    rw [T.convert_eq_of_pattern hw _ _ (T.pattern_or a a), Nat.or_self,
      ← T.eq_ofPattern hw a ha]
  · show (⟨T.convert (T.xor a a)⟩ : Integer T) = ⟨0⟩
    rw [T.convert_eq_of_pattern hw _ _ (T.pattern_xor a a), Nat.xor_self, T.ofPattern_zero]

/-- C3, at `std::int8_t` holding -128 (pattern 10000000) and 1 (pattern
00000001): `&` stores 0, `|` and `^` store -127 (pattern 10000001), and
`-1 & -1` is -1. -/
theorem bitwise_matches_patterns_witness :
    (0 < IntType.int8.bits ∧ IntType.int8.inRange (-128)) ∧
    ((Integer.and (⟨-128⟩ : Integer IntType.int8) ⟨1⟩).value
        = IntType.int8.ofPattern (IntType.int8.pattern (-128) &&& IntType.int8.pattern 1) ∧
      (Integer.or (⟨-128⟩ : Integer IntType.int8) ⟨1⟩).value
        = IntType.int8.ofPattern (IntType.int8.pattern (-128) ||| IntType.int8.pattern 1) ∧
      IntType.int8.inRange (Integer.or (⟨-128⟩ : Integer IntType.int8) ⟨1⟩).value) ∧
    (Integer.and (⟨-128⟩ : Integer IntType.int8) ⟨1⟩ = ⟨0⟩ ∧
      Integer.or (⟨-128⟩ : Integer IntType.int8) ⟨1⟩ = ⟨-127⟩ ∧
      Integer.xor (⟨-128⟩ : Integer IntType.int8) ⟨1⟩ = ⟨-127⟩ ∧
      Integer.and (⟨-1⟩ : Integer IntType.int8) ⟨-1⟩ = ⟨-1⟩ ∧
      Integer.eq (Integer.and (⟨-1⟩ : Integer IntType.int8) ⟨-1⟩) ⟨-1⟩ = true) :=
  ⟨⟨by decide, by decide⟩,
    ⟨(bitwise_matches_patterns IntType.int8 (-128) 1 (by decide) (by decide)).2.2.1.1,
      (bitwise_matches_patterns IntType.int8 (-128) 1 (by decide) (by decide)).2.2.1.2.1,
      (bitwise_matches_patterns IntType.int8 (-128) 1 (by decide) (by decide)).2.1.2.1⟩,
    by decide⟩

/-- C4: evaluation of both move operations on `Integer<int>` (32-bit `int`)
with a source at address 0 holding 5 and a destination at address 1.  Move
assignment leaves 5 in the destination and 0 in the source.  Move construction
leaves 5 in the destination and 5, not 0, in the source. -/
theorem move_construct_keeps_source :
    (Integer.moveAssign (Store.write (fun _ => (⟨0⟩ : Integer (IntType.int 32))) 0 ⟨5⟩) 1 0) 1
        = ⟨5⟩ ∧
    (Integer.moveAssign (Store.write (fun _ => (⟨0⟩ : Integer (IntType.int 32))) 0 ⟨5⟩) 1 0) 0
        = ⟨0⟩ ∧
    (Integer.moveConstruct (Store.write (fun _ => (⟨0⟩ : Integer (IntType.int 32))) 0 ⟨5⟩) 1 0) 1
        = ⟨5⟩ ∧
    (Integer.moveConstruct (Store.write (fun _ => (⟨0⟩ : Integer (IntType.int 32))) 0 ⟨5⟩) 1 0) 0
        = ⟨5⟩ ∧
    (Integer.moveConstruct (Store.write (fun _ => (⟨0⟩ : Integer (IntType.int 32))) 0 ⟨5⟩) 1 0) 0
        ≠ ⟨0⟩ := by
  decide

/-- C5: self-assignment is a no-op for both assignment operators: when the
right-hand side is the object itself, copy assignment and move assignment
leave the whole store, and so the value of the object, unchanged. -/
theorem self_assignment_noop (T : IntType) (s : Store T) (x : Addr) :
    Integer.copyAssign s x x = s ∧ Integer.moveAssign s x x = s ∧
    (Integer.copyAssign s x x) x = s x ∧ (Integer.moveAssign s x x) x = s x := by
  have hc : Integer.copyAssign s x x = s := by
    unfold Integer.copyAssign
    exact if_pos rfl
  have hm : Integer.moveAssign s x x = s := by
    unfold Integer.moveAssign
    exact if_pos rfl
  exact ⟨hc, hm, by rw [hc], by rw [hm]⟩

/-- C6: for every representation and every dividend, the wrapper's `/`, `/=`,
`%` and `%=` with a divisor holding zero yield the division-by-zero fault of
the built-in operator, and so no wrapper value at all. -/
theorem division_by_zero_faults (T : IntType) (a : Int) :
    (Integer.div (⟨a⟩ : Integer T) ⟨0⟩ = .error .divByZero ∧
      Integer.divAssign (⟨a⟩ : Integer T) ⟨0⟩ = .error .divByZero ∧
      Integer.mod (⟨a⟩ : Integer T) ⟨0⟩ = .error .divByZero ∧
      Integer.modAssign (⟨a⟩ : Integer T) ⟨0⟩ = .error .divByZero) ∧
    (T.div a 0 = .error .divByZero ∧ T.mod a 0 = .error .divByZero) ∧
    (∀ r : Integer T, Integer.div ⟨a⟩ ⟨0⟩ ≠ .ok r ∧ Integer.divAssign ⟨a⟩ ⟨0⟩ ≠ .ok r ∧
      Integer.mod ⟨a⟩ ⟨0⟩ ≠ .ok r ∧ Integer.modAssign ⟨a⟩ ⟨0⟩ ≠ .ok r) := by
  have hd : T.div a 0 = .error .divByZero := by simp [IntType.div]
  have hm : T.mod a 0 = .error .divByZero := by simp [IntType.mod]
  have h1 : Integer.divAssign (⟨a⟩ : Integer T) ⟨0⟩ = .error .divByZero := by
    simp [Integer.divAssign, hd, bind, Except.bind]
  have h2 : Integer.div (⟨a⟩ : Integer T) ⟨0⟩ = .error .divByZero := by
    simp [Integer.div, h1, bind, Except.bind]
  have h3 : Integer.modAssign (⟨a⟩ : Integer T) ⟨0⟩ = .error .divByZero := by
    simp [Integer.modAssign, hm, bind, Except.bind]
  have h4 : Integer.mod (⟨a⟩ : Integer T) ⟨0⟩ = .error .divByZero := by
    simp [Integer.mod, h3, bind, Except.bind]
  refine ⟨⟨h2, h1, h4, h3⟩, ⟨hd, hm⟩, ?_⟩
  intro r
  rw [h1, h2, h3, h4]
  simp

/-- C7: for a wrapper holding a value `v` of its representation, prefix
increment leaves (and returns) the state holding `v + 1` wrapped in `T`: the
least value of `T` when `v` is the greatest, `v + 1` otherwise, with the low
`bits` bits of `v + 1` as pattern; postfix increment returns a wrapper holding
`v` and leaves the state of the prefix increment. -/
theorem increment_semantics (T : IntType) (v : Int) (hw : 0 < T.bits) (hv : T.inRange v) :
    ((Integer.preInc (⟨v⟩ : Integer T)).value = if v = T.maxVal then T.minVal else v + 1) ∧
    T.pattern (Integer.preInc (⟨v⟩ : Integer T)).value = ((v + 1) % 2 ^ T.bits).toNat ∧
    T.inRange (Integer.preInc (⟨v⟩ : Integer T)).value ∧
    (Integer.postInc (⟨v⟩ : Integer T)).1 = ⟨v⟩ ∧
    (Integer.postInc (⟨v⟩ : Integer T)).2 = Integer.preInc ⟨v⟩ ∧
    (Integer.postInc (⟨v⟩ : Integer T)).2.value = if v = T.maxVal then T.minVal else v + 1 :=
  ⟨T.stored_succ hw v hv, T.pattern_stored (v + 1), T.convert_inRange hw _, rfl, rfl,
    T.stored_succ hw v hv⟩

/-- C7, at `std::uint8_t` holding its greatest value 255 (wraps to 0). -/
theorem increment_semantics_witness :
    0 < IntType.uint8.bits ∧ IntType.uint8.inRange 255 ∧
    ((Integer.preInc (⟨255⟩ : Integer IntType.uint8)).value
        = if (255 : Int) = IntType.uint8.maxVal then IntType.uint8.minVal else 255 + 1) ∧
    IntType.uint8.pattern (Integer.preInc (⟨255⟩ : Integer IntType.uint8)).value
        = (((255 : Int) + 1) % 2 ^ IntType.uint8.bits).toNat ∧
    IntType.uint8.inRange (Integer.preInc (⟨255⟩ : Integer IntType.uint8)).value ∧
    (Integer.postInc (⟨255⟩ : Integer IntType.uint8)).1 = ⟨255⟩ ∧
    (Integer.postInc (⟨255⟩ : Integer IntType.uint8)).2 = Integer.preInc ⟨255⟩ ∧
    (Integer.postInc (⟨255⟩ : Integer IntType.uint8)).2.value
        = if (255 : Int) = IntType.uint8.maxVal then IntType.uint8.minVal else 255 + 1 :=
  ⟨by decide, by decide, increment_semantics IntType.uint8 255 (by decide) (by decide)⟩

/-- C8: on wrappers holding values of the representation, the six comparison
operators agree with the order of the stored values and form a total order:
exactly one of `<`, `==`, `>` holds, `<` and `<=` are transitive, `<=` is
antisymmetric and total, and `==` holds exactly for equal stored values.  This
order is the native one: the unsigned order of the bit patterns for an
unsigned `T`, and the order of the bit patterns with the sign bit flipped (the
two's complement order) for a signed `T`. -/
theorem comparison_total_order (T : IntType) (x y z : Integer T) (hw : 0 < T.bits)
    (hx : T.inRange x.value) (hy : T.inRange y.value) :
    ((x.lt y = true ↔ x.value < y.value) ∧ (x.le y = true ↔ x.value ≤ y.value) ∧
      (x.gt y = true ↔ y.value < x.value) ∧ (x.ge y = true ↔ y.value ≤ x.value) ∧
      (x.eq y = true ↔ x.value = y.value) ∧ (x.ne y = true ↔ x.value ≠ y.value)) ∧
    ((x.lt y = true ∧ x.eq y = false ∧ x.gt y = false) ∨
      (x.lt y = false ∧ x.eq y = true ∧ x.gt y = false) ∨
      (x.lt y = false ∧ x.eq y = false ∧ x.gt y = true)) ∧
    ((x.lt y = true → y.lt z = true → x.lt z = true) ∧
      (x.le y = true → y.le z = true → x.le z = true) ∧
      (x.le y = true → y.le x = true → x.eq y = true)) ∧
    ((x.eq y = true ↔ x = y) ∧ (x.le y = true ∨ y.le x = true)) ∧
    (x.lt y = true ↔
      if T.signed then
        (T.pattern x.value + 2 ^ (T.bits - 1)) % 2 ^ T.bits
          < (T.pattern y.value + 2 ^ (T.bits - 1)) % 2 ^ T.bits
      else T.pattern x.value < T.pattern y.value) := by
  refine ⟨⟨x.lt_iff y, x.le_iff y, x.gt_iff y, x.ge_iff y, x.eq_iff y, x.ne_iff y⟩, ?_,
    ⟨?_, ?_, ?_⟩, ⟨?_, ?_⟩, ?_⟩
  · rcases lt_trichotomy x.value y.value with h | h | h
    · refine Or.inl ⟨(x.lt_iff y).mpr h, ?_, ?_⟩
      · rw [← Bool.not_eq_true, x.eq_iff y]; omega
      · rw [← Bool.not_eq_true, x.gt_iff y]; omega
    · refine Or.inr (Or.inl ⟨?_, (x.eq_iff y).mpr h, ?_⟩)
      · rw [← Bool.not_eq_true, x.lt_iff y]; omega
      · rw [← Bool.not_eq_true, x.gt_iff y]; omega
    · refine Or.inr (Or.inr ⟨?_, ?_, (x.gt_iff y).mpr h⟩)
      · rw [← Bool.not_eq_true, x.lt_iff y]; omega
      · rw [← Bool.not_eq_true, x.eq_iff y]; omega
  · rw [x.lt_iff y, y.lt_iff z, x.lt_iff z]; omega
  · rw [x.le_iff y, y.le_iff z, x.le_iff z]; omega
  · rw [x.le_iff y, y.le_iff x, x.eq_iff y]; omega
  · rw [x.eq_iff y]
    constructor
    · intro h
      cases x
      cases y
      simp only at h
      rw [h]
    · intro h
      rw [h]
  · rw [x.le_iff y, y.le_iff x]; omega
  · cases hs : T.signed
    · simp only [Bool.false_eq_true, if_false]
      rw [x.lt_iff y, ← Int.ofNat_lt, T.pattern_unsigned hs x.value hx,
        T.pattern_unsigned hs y.value hy]
    · simp only [if_true]
      rw [x.lt_iff y, ← Int.ofNat_lt, T.pattern_signed hw hs x.value hx,
        T.pattern_signed hw hs y.value hy]
      omega

/-- C8, at `std::int8_t` holding -1, 1 and 5: `-1 < 1 < 5`, although the
pattern of -1 (255) is the greatest. -/
theorem comparison_total_order_witness :
    (0 < IntType.int8.bits ∧ IntType.int8.inRange (-1) ∧ IntType.int8.inRange 1) ∧
    (Integer.lt (⟨-1⟩ : Integer IntType.int8) ⟨1⟩ = true ∧
      Integer.lt (⟨1⟩ : Integer IntType.int8) ⟨5⟩ = true ∧
      IntType.int8.pattern (-1) = 255 ∧ IntType.int8.pattern 1 = 1) ∧
    Integer.lt (⟨-1⟩ : Integer IntType.int8) ⟨5⟩ = true ∧
    (Integer.lt (⟨-1⟩ : Integer IntType.int8) ⟨1⟩ = true ↔
      if IntType.int8.signed then
        (IntType.int8.pattern (-1) + 2 ^ (IntType.int8.bits - 1)) % 2 ^ IntType.int8.bits
          < (IntType.int8.pattern 1 + 2 ^ (IntType.int8.bits - 1)) % 2 ^ IntType.int8.bits
      else IntType.int8.pattern (-1) < IntType.int8.pattern 1) :=
  ⟨by decide, by decide,
    (comparison_total_order IntType.int8 ⟨-1⟩ ⟨1⟩ ⟨5⟩
      (by decide) (by decide) (by decide)).2.2.1.1 (by decide) (by decide),
    (comparison_total_order IntType.int8 ⟨-1⟩ ⟨1⟩ ⟨5⟩
      (by decide) (by decide) (by decide)).2.2.2.2⟩

/-- C9: every non-mutating binary operator (`+ - * / % & | ^ << >>`) is the
compound form applied to a copy of its left operand: its outcome (value or
fault) is the outcome of the compound form on a copy of the left operand, and
a call on stored objects, whose by-value parameter is a fresh object, leaves
the caller's left operand, the right operand and every other object as they
were. -/
theorem binary_is_copy_then_compound (T : IntType) (op : BinOp) (s : Store T) (p x y : Addr)
    (hx : p ≠ x) (hy : p ≠ y) :
    Integer.binary op (s x) (s y) = Integer.compound op (s x).copy (s y) ∧
    Store.binary op s p x y
      = (Integer.compound op (s x).copy (s y)).map (fun r => (r, s.write p r)) ∧
    (Store.binary op s p x y).map (fun rs => rs.1) = Integer.binary op (s x) (s y) ∧
    (∀ (r : Integer T) (t : Store T), Store.binary op s p x y = .ok (r, t) →
      t x = s x ∧ t y = s y ∧ ∀ q, q ≠ p → t q = s q) := by
  refine ⟨Integer.binary_eq_compound op _ _, Store.binary_eq op s p x y hy, ?_, ?_⟩
  · rw [Store.binary_eq op s p x y hy, Integer.binary_eq_compound]
    cases Integer.compound op (s x).copy (s y) <;> rfl
  · intro r t h
    rw [Store.binary_eq op s p x y hy] at h
    cases hc : Integer.compound op (s x).copy (s y) with
    | error e =>
      rw [hc] at h
      cases h
    | ok r0 =>
      rw [hc] at h
      simp only [Except.map, Except.ok.injEq, Prod.mk.injEq] at h
      obtain ⟨_, ht⟩ := h
      subst ht
      exact ⟨s.write_other p x r0 (Ne.symm hx), s.write_other p y r0 (Ne.symm hy),
        fun q hq => s.write_other p q r0 hq⟩

/-- C9, at `Integer<std::int32_t>` objects holding 10 (address 0) and 15
(address 1), with the parameter at address 2, for `+`. -/
theorem binary_is_copy_then_compound_witness :
    ((2 : Addr) ≠ 0 ∧ (2 : Addr) ≠ 1) ∧
    Integer.binary BinOp.add (⟨10⟩ : Integer IntType.int32) ⟨15⟩
      = Integer.compound BinOp.add (Integer.copy ⟨10⟩) ⟨15⟩ ∧
    (Store.binary BinOp.add
        (fun a => if a = 0 then (⟨10⟩ : Integer IntType.int32) else ⟨15⟩) 2 0 1).map
        (fun rs => (rs.1, rs.2 0, rs.2 1))
      = .ok (⟨25⟩, ⟨10⟩, ⟨15⟩) :=
  ⟨⟨by decide, by decide⟩,
    (binary_is_copy_then_compound IntType.int32 BinOp.add
      (fun a => if a = 0 then ⟨10⟩ else ⟨15⟩) 2 0 1 (by decide) (by decide)).1,
    by decide⟩

/-- C10: the scenario of the example program, on every target whose `int` has
at least 16 bits: starting from `i = hk::integer{10}` and applying `i += 15`,
the comparison `i > 20` is true, `i == 25` is true, and `i.get()` returns 25. -/
theorem example_scenario (w : Nat) (hw : 16 ≤ w) :
    simpleMain w = ⟨true, true, 25⟩ ∧
    Integer.addAssign (⟨10⟩ : Integer (IntType.int w)) ⟨15⟩ = ⟨25⟩ ∧
    Integer.gt (Integer.addAssign (⟨10⟩ : Integer (IntType.int w)) ⟨15⟩) ⟨20⟩ = true ∧
    Integer.eq (Integer.addAssign (⟨10⟩ : Integer (IntType.int w)) ⟨15⟩) ⟨25⟩ = true ∧
    Integer.get (Integer.addAssign (⟨10⟩ : Integer (IntType.int w)) ⟨15⟩) = 25 := by
  have hpos : 0 < (IntType.int w).bits := by
    show 0 < w
    omega
  have hr : (IntType.int w).inRange 25 := by
    have h5 : (2 : Int) ^ 5 ≤ 2 ^ (w - 1) := pow_le_pow_right₀ (by decide) (by omega)
    unfold IntType.inRange IntType.minVal IntType.maxVal IntType.int
    simp only [if_true]
    constructor <;> omega
  have hp : (IntType.int w).promote = IntType.int w := by
    simp [IntType.promote, IntType.int]
  have hv : Integer.addAssign (⟨10⟩ : Integer (IntType.int w)) ⟨15⟩ = ⟨25⟩ := by
    unfold Integer.addAssign IntType.add
    rw [hp]
    show (⟨(IntType.int w).convert ((IntType.int w).convert 25)⟩ : Integer (IntType.int w)) = _
    rw [(IntType.int w).convert_of_inRange hpos 25 hr,
      (IntType.int w).convert_of_inRange hpos 25 hr]
  have hm : simpleMain w = ⟨true, true, 25⟩ := by
    unfold simpleMain
    simp only [hv]
    rfl
  refine ⟨hm, hv, ?_, ?_, ?_⟩
  · rw [hv]; rfl
  · rw [hv]; rfl
  · rw [hv]; rfl

/-- C10, on a target whose `int` has 32 bits. -/
theorem example_scenario_witness :
    16 ≤ 32 ∧ simpleMain 32 = ⟨true, true, 25⟩ :=
  ⟨by decide, (example_scenario 32 (by decide)).1⟩

/-- C11, as stated, fails: the default constructor of `Integer<int>` run on
storage that holds 7 leaves an object holding 7, not 0. -/
theorem default_construct_not_zero :
    (Integer.defaultConstruct (fun _ => (⟨7⟩ : Integer IntType.int32)) 0) 0 = ⟨7⟩ ∧
    (Integer.defaultConstruct (fun _ => (⟨7⟩ : Integer IntType.int32)) 0) 0 ≠ ⟨0⟩ := by
  decide

/-- C11, amended: for every representation, a value-initialised wrapper
(`Integer<I>{}`) holds zero, whatever its storage held, and no other object is
touched; the default constructor by itself writes nothing, so a
default-initialised wrapper (`Integer<I> x;`) holds what its storage held. -/
theorem value_init_zero (T : IntType) (s : Store T) (p : Addr) :
    (Integer.valueInit s p) p = ⟨0⟩ ∧
    Integer.valueInit s p = s.write p ⟨0⟩ ∧
    Integer.defaultConstruct s p = s ∧
    (Integer.defaultConstruct s p) p = s p := by
  have h : Integer.valueInit s p = s.write p ⟨0⟩ := by
    unfold Integer.valueInit Integer.defaultConstruct
    rw [T.convert_zero]
  exact ⟨by rw [h, Store.write_same], h, rfl, rfl⟩

/-- C12: evaluation of construction and of the accessors on `Integer<int>`
constructed from 5.  The object stores 5, `get()` on the (non-const) object
returns 5, and after `x.get() = 9` it returns 9; `cget()` calls the non-const
member `get()` on a const `*this`, which is ill-formed, so it returns nothing. -/
theorem cget_is_ill_formed :
    (Integer.mk 5 : Integer IntType.int32).value = 5 ∧
    Integer.get (⟨5⟩ : Integer IntType.int32) = 5 ∧
    Integer.getCall Qual.nonConst (⟨5⟩ : Integer IntType.int32) = some 5 ∧
    Integer.get (Integer.assignGet (⟨5⟩ : Integer IntType.int32) 9) = 9 ∧
    Integer.cget (⟨5⟩ : Integer IntType.int32) = none ∧
    Integer.cget (⟨5⟩ : Integer IntType.int32) ≠ some 5 := by
  decide

/-- C13: copy assignment `x = y` leaves in `x` the state of `y`, leaves `y` as
it was, and changes no other object; move assignment between distinct objects
gives `x` the same state but leaves `y` holding zero. -/
theorem copy_assignment_semantics (T : IntType) (s : Store T) (x y : Addr) :
    ((Integer.copyAssign s x y) x = s y ∧ (Integer.copyAssign s x y) y = s y) ∧
    Integer.copyAssign s x y = s.write x (s y) ∧
    (x ≠ y → (Integer.moveAssign s x y) x = s y ∧ (Integer.moveAssign s x y) y = ⟨0⟩) := by
  have h := Integer.copyAssign_eq s x y
  refine ⟨⟨?_, ?_⟩, h, Integer.moveAssign_distinct s x y⟩
  · rw [h, Store.write_same]
  · rw [h]
    by_cases hxy : y = x
    · rw [hxy, Store.write_same]
    · exact s.write_other x y _ hxy

/-- C13, at `Integer<std::int32_t>` objects `x` (address 0, holding 3) and `y`
(address 1, holding 8). -/
theorem copy_assignment_semantics_witness :
    (0 : Addr) ≠ 1 ∧
    (Integer.copyAssign (fun a => if a = 0 then (⟨3⟩ : Integer IntType.int32) else ⟨8⟩) 0 1) 0
      = ⟨8⟩ ∧
    (Integer.copyAssign (fun a => if a = 0 then (⟨3⟩ : Integer IntType.int32) else ⟨8⟩) 0 1) 1
      = ⟨8⟩ ∧
    (Integer.moveAssign (fun a => if a = 0 then (⟨3⟩ : Integer IntType.int32) else ⟨8⟩) 0 1) 0
      = ⟨8⟩ ∧
    (Integer.moveAssign (fun a => if a = 0 then (⟨3⟩ : Integer IntType.int32) else ⟨8⟩) 0 1) 1
      = ⟨0⟩ :=
  ⟨by decide,
    (copy_assignment_semantics IntType.int32 (fun a => if a = 0 then ⟨3⟩ else ⟨8⟩) 0 1).1.1,
    (copy_assignment_semantics IntType.int32 (fun a => if a = 0 then ⟨3⟩ else ⟨8⟩) 0 1).1.2,
    ((copy_assignment_semantics IntType.int32 (fun a => if a = 0 then ⟨3⟩ else ⟨8⟩) 0 1).2.2
      (by decide)).1,
    ((copy_assignment_semantics IntType.int32 (fun a => if a = 0 then ⟨3⟩ else ⟨8⟩) 0 1).2.2
      (by decide)).2⟩

/-- C14: for every representation and every value `v`, `!wrapper(v)` is the
boolean `v == 0`, true exactly when the stored value is zero, and the
evaluation leaves the operand (and the whole store) as it was. -/
theorem logical_not_iff_zero (T : IntType) (v : Int) (s : Store T) (x : Addr) :
    Integer.lnot (⟨v⟩ : Integer T) = decide (v = 0) ∧
    (Integer.lnot (⟨v⟩ : Integer T) = true ↔ v = 0) ∧
    Store.eval1 Integer.lnot s x = (decide ((s x).value = 0), s) := by
  have h : ∀ a : Int, (!(toBool a)) = decide (a = 0) := by
    intro a
    unfold toBool
    by_cases ha : a = 0 <;> simp [ha]
  refine ⟨h v, ?_, ?_⟩
  · show (!(toBool v)) = true ↔ v = 0
    rw [h v]
    exact decide_eq_true_iff
  · show ((!(toBool (s x).value)), s) = _
    rw [h]

/-- C15: for all `a`, `b`, `wrapper(a) && wrapper(b)` is true exactly when both
stored values are non-zero and `wrapper(a) || wrapper(b)` exactly when one of
them is; both are functions of the two stored values alone, and the evaluation
leaves both operands (and the whole store) as they were. -/
theorem logical_and_or (T : IntType) (a b : Int) (s : Store T) (x y : Addr) :
    (Integer.land (⟨a⟩ : Integer T) ⟨b⟩ = true ↔ a ≠ 0 ∧ b ≠ 0) ∧
    (Integer.lor (⟨a⟩ : Integer T) ⟨b⟩ = true ↔ a ≠ 0 ∨ b ≠ 0) ∧
    Integer.land (⟨a⟩ : Integer T) ⟨b⟩ = (decide (a ≠ 0) && decide (b ≠ 0)) ∧
    Integer.lor (⟨a⟩ : Integer T) ⟨b⟩ = (decide (a ≠ 0) || decide (b ≠ 0)) ∧
    Store.eval2 Integer.land s x y
      = (decide ((s x).value ≠ 0) && decide ((s y).value ≠ 0), s) ∧
    Store.eval2 Integer.lor s x y
      = (decide ((s x).value ≠ 0) || decide ((s y).value ≠ 0), s) := by
  refine ⟨?_, ?_, rfl, rfl, rfl, rfl⟩
  · show (toBool a && toBool b) = true ↔ _
    unfold toBool
    rw [Bool.and_eq_true, decide_eq_true_iff, decide_eq_true_iff]
  · show (toBool a || toBool b) = true ↔ _
    unfold toBool
    rw [Bool.or_eq_true, decide_eq_true_iff, decide_eq_true_iff]

/-- C16: for a wrapper holding a value `v` of its representation, unary plus
returns a wrapper holding `v`, and unary minus returns a wrapper holding the
one value `n` of `T` with `v + n = 0` modulo `2 ^ bits` (that is `-v`, except
that the least value of a signed `T` is its own negation and an unsigned
non-zero `v` gives `2 ^ bits - v`), so that `wrapper(v) + (-wrapper(v))` equals
`wrapper(0)`; both evaluations leave the operand (and the whole store) as it
was. -/
theorem unary_plus_minus (T : IntType) (v : Int) (hw : 0 < T.bits) (hv : T.inRange v)
    (s : Store T) (x : Addr) :
    Integer.pos (⟨v⟩ : Integer T) = ⟨v⟩ ∧
    (T.inRange (Integer.neg (⟨v⟩ : Integer T)).value ∧
      (v + (Integer.neg (⟨v⟩ : Integer T)).value) % 2 ^ T.bits = 0) ∧
    (∀ n : Int, T.inRange n → (v + n) % 2 ^ T.bits = 0 →
      n = (Integer.neg (⟨v⟩ : Integer T)).value) ∧
    ((Integer.neg (⟨v⟩ : Integer T)).value =
      if T.signed then (if v = T.minVal then T.minVal else -v)
      else (if v = 0 then 0 else 2 ^ T.bits - v)) ∧
    (Integer.add (⟨v⟩ : Integer T) (Integer.neg ⟨v⟩) = ⟨0⟩ ∧
      Integer.eq (Integer.add (⟨v⟩ : Integer T) (Integer.neg ⟨v⟩)) ⟨0⟩ = true) ∧
    (Store.eval1 Integer.pos s x = (Integer.pos (s x), s) ∧
      Store.eval1 Integer.neg s x = (Integer.neg (s x), s)) := by
  have hn : (Integer.neg (⟨v⟩ : Integer T)).value % 2 ^ T.bits = (-v) % 2 ^ T.bits := by
    show T.convert (T.promote.convert (-v)) % 2 ^ T.bits = _
    rw [T.convert_emod, T.promote_convert_emod]
  have hr : T.inRange (Integer.neg (⟨v⟩ : Integer T)).value := T.convert_inRange hw _
  have hsum : (v + (Integer.neg (⟨v⟩ : Integer T)).value) % 2 ^ T.bits = 0 := by
    rw [Int.add_emod, hn, ← Int.add_emod, add_neg_cancel]
    rfl
  have hadd : Integer.add (⟨v⟩ : Integer T) (Integer.neg ⟨v⟩) = ⟨0⟩ := by
    show (⟨T.convert (T.promote.convert (v + (Integer.neg (⟨v⟩ : Integer T)).value))⟩ :
      Integer T) = ⟨0⟩
    rw [T.stored_zero _ hsum]
  refine ⟨?_, ⟨hr, hsum⟩, ?_, T.stored_neg hw v hv, ⟨hadd, ?_⟩, rfl, rfl⟩
  · show (⟨T.convert (T.promote.convert v)⟩ : Integer T) = ⟨v⟩
    rw [T.stored_eq hw v v hv rfl]
  · intro n hnr hz
    apply T.eq_of_emod_eq hw n _ hnr hr
    rw [hn]
    apply Int.emod_eq_emod_iff_emod_sub_eq_zero.mpr
    rw [sub_neg_eq_add, add_comm]
    exact hz
  · rw [hadd]
    rfl

/-- C16, at `std::int8_t` holding its least value -128, which is its own
negation. -/
theorem unary_plus_minus_witness :
    (0 < IntType.int8.bits ∧ IntType.int8.inRange (-128)) ∧
    Integer.pos (⟨-128⟩ : Integer IntType.int8) = ⟨-128⟩ ∧
    (Integer.neg (⟨-128⟩ : Integer IntType.int8)).value =
      (if IntType.int8.signed then (if (-128 : Int) = IntType.int8.minVal then IntType.int8.minVal
        else -(-128))
      else (if (-128 : Int) = 0 then 0 else 2 ^ IntType.int8.bits - (-128))) ∧
    Integer.add (⟨-128⟩ : Integer IntType.int8) (Integer.neg ⟨-128⟩) = ⟨0⟩ :=
  ⟨⟨by decide, by decide⟩,
    (unary_plus_minus IntType.int8 (-128) (by decide) (by decide) (fun _ => ⟨0⟩) 0).1,
    (unary_plus_minus IntType.int8 (-128) (by decide) (by decide) (fun _ => ⟨0⟩) 0).2.2.2.1,
    (unary_plus_minus IntType.int8 (-128) (by decide) (by decide) (fun _ => ⟨0⟩) 0).2.2.2.2.1.1⟩

/-- C17: for a wrapper holding a value `v` of its representation, the pattern
of `~wrapper(v)` is the pattern of `v` with every bit below the width flipped
and no bit at or above the width set (it is `2 ^ bits - 1` minus the pattern of
`v`); hence `~~wrapper(v)` equals `wrapper(v)` and `wrapper(v) & ~wrapper(v)`
equals `wrapper(0)`; the evaluation leaves the operand (and the whole store)
as it was. -/
theorem bitwise_not_flips (T : IntType) (v : Int) (hw : 0 < T.bits) (hv : T.inRange v)
    (s : Store T) (x : Addr) :
    (T.pattern (Integer.not (⟨v⟩ : Integer T)).value = T.pattern v ^^^ (2 ^ T.bits - 1) ∧
      T.pattern (Integer.not (⟨v⟩ : Integer T)).value = 2 ^ T.bits - 1 - T.pattern v ∧
      T.pattern (Integer.not (⟨v⟩ : Integer T)).value < 2 ^ T.bits ∧
      ∀ i : Nat, (T.pattern (Integer.not (⟨v⟩ : Integer T)).value).testBit i
        = (decide (i < T.bits) && !(T.pattern v).testBit i)) ∧
    T.inRange (Integer.not (⟨v⟩ : Integer T)).value ∧
    (Integer.not (Integer.not (⟨v⟩ : Integer T)) = ⟨v⟩ ∧
      Integer.eq (Integer.not (Integer.not (⟨v⟩ : Integer T))) ⟨v⟩ = true) ∧
    (Integer.and (⟨v⟩ : Integer T) (Integer.not ⟨v⟩) = ⟨0⟩ ∧
      Integer.eq (Integer.and (⟨v⟩ : Integer T) (Integer.not ⟨v⟩)) ⟨0⟩ = true) ∧
    Store.eval1 Integer.not s x = (Integer.not (s x), s) := by
  have hp : T.pattern (Integer.not (⟨v⟩ : Integer T)).value
      = T.pattern v ^^^ (2 ^ T.bits - 1) := T.pattern_not v
  have hr : T.inRange (Integer.not (⟨v⟩ : Integer T)).value := T.convert_inRange hw _
  have hnn : Integer.not (Integer.not (⟨v⟩ : Integer T)) = ⟨v⟩ := by
    have hv2 : (Integer.not (Integer.not (⟨v⟩ : Integer T))).value = v := by
      apply T.eq_of_pattern_eq hw _ v (T.convert_inRange hw _) hv
      show T.pattern (T.convert (T.not (Integer.not (⟨v⟩ : Integer T)).value)) = _
      rw [T.pattern_not, hp, Nat.xor_mask_twice]
    show (⟨(Integer.not (Integer.not (⟨v⟩ : Integer T))).value⟩ : Integer T) = ⟨v⟩
    rw [hv2]
  have hand : Integer.and (⟨v⟩ : Integer T) (Integer.not ⟨v⟩) = ⟨0⟩ := by
    have hz : T.convert (T.and v (Integer.not (⟨v⟩ : Integer T)).value) = 0 := by
      have hpz : T.pattern (T.convert (T.and v (Integer.not (⟨v⟩ : Integer T)).value)) = 0 := by
        rw [T.pattern_and, hp, Nat.and_xor_mask _ _ (T.pattern_lt v)]
      exact T.convert_of_pattern_zero _ ((T.pattern_convert _).symm.trans hpz)
    show (⟨T.convert (T.and v (Integer.not (⟨v⟩ : Integer T)).value)⟩ : Integer T) = ⟨0⟩
    rw [hz]
  refine ⟨⟨hp, ?_, T.pattern_lt _, ?_⟩, hr, ⟨hnn, ?_⟩, ⟨hand, ?_⟩, rfl⟩
  · rw [hp, Nat.xor_mask_eq _ _ (T.pattern_lt v)]
  · intro i
    rw [hp, Nat.xor_mask_testBit _ _ i (T.pattern_lt v)]
  · rw [hnn]
    exact (Integer.eq_iff _ _).mpr rfl
  · rw [hand]
    rfl

/-- C17, at `std::uint8_t` holding 200 (pattern 11001000): the complement
holds 55 (pattern 00110111). -/
theorem bitwise_not_flips_witness :
    (0 < IntType.uint8.bits ∧ IntType.uint8.inRange 200) ∧
    Integer.not (⟨200⟩ : Integer IntType.uint8) = ⟨55⟩ ∧
    IntType.uint8.pattern (Integer.not (⟨200⟩ : Integer IntType.uint8)).value
      = 2 ^ IntType.uint8.bits - 1 - IntType.uint8.pattern 200 ∧
    Integer.not (Integer.not (⟨200⟩ : Integer IntType.uint8)) = ⟨200⟩ ∧
    Integer.and (⟨200⟩ : Integer IntType.uint8) (Integer.not ⟨200⟩) = ⟨0⟩ :=
  ⟨⟨by decide, by decide⟩, by decide,
    (bitwise_not_flips IntType.uint8 200 (by decide) (by decide) (fun _ => ⟨0⟩) 0).1.2.1,
    (bitwise_not_flips IntType.uint8 200 (by decide) (by decide) (fun _ => ⟨0⟩) 0).2.2.1.1,
    (bitwise_not_flips IntType.uint8 200 (by decide) (by decide) (fun _ => ⟨0⟩) 0).2.2.2.1.1⟩

/-- C19: for a wrapper holding a value `v` of its representation, prefix
decrement leaves (and returns) the state holding `v - 1` wrapped in `T` (the
greatest value of `T` when `v` is the least, `v - 1` otherwise), postfix
decrement returns a wrapper holding `v` and leaves the state of the prefix
decrement, and decrement undoes increment and conversely for every `v`, the
least and the greatest value of `T` included. -/
theorem decrement_semantics (T : IntType) (v : Int) (hw : 0 < T.bits) (hv : T.inRange v) :
    ((Integer.preDec (⟨v⟩ : Integer T)).value = if v = T.minVal then T.maxVal else v - 1) ∧
    T.pattern (Integer.preDec (⟨v⟩ : Integer T)).value = ((v - 1) % 2 ^ T.bits).toNat ∧
    T.inRange (Integer.preDec (⟨v⟩ : Integer T)).value ∧
    ((Integer.postDec (⟨v⟩ : Integer T)).1 = ⟨v⟩ ∧
      (Integer.postDec (⟨v⟩ : Integer T)).2 = Integer.preDec ⟨v⟩) ∧
    (Integer.preDec (Integer.preInc (⟨v⟩ : Integer T)) = ⟨v⟩ ∧
      Integer.preInc (Integer.preDec (⟨v⟩ : Integer T)) = ⟨v⟩) := by
  refine ⟨T.stored_pred hw v hv, T.pattern_stored (v - 1), T.convert_inRange hw _, ⟨rfl, rfl⟩,
    ?_, ?_⟩
  · show (⟨T.convert (T.promote.convert (T.convert (T.promote.convert (v + 1)) - 1))⟩ :
      Integer T) = ⟨v⟩
    rw [T.stored_eq hw _ v hv]
    rw [Int.sub_emod, T.convert_emod, T.promote_convert_emod, ← Int.sub_emod,
      add_sub_cancel_right]
  · show (⟨T.convert (T.promote.convert (T.convert (T.promote.convert (v - 1)) + 1))⟩ :
      Integer T) = ⟨v⟩
    rw [T.stored_eq hw _ v hv]
    rw [Int.add_emod, T.convert_emod, T.promote_convert_emod, ← Int.add_emod,
      sub_add_cancel]

/-- C19, at `std::int8_t` holding its least value -128: decrement wraps to
127, and increment and decrement undo each other there. -/
theorem decrement_semantics_witness :
    (0 < IntType.int8.bits ∧ IntType.int8.inRange (-128)) ∧
    ((Integer.preDec (⟨-128⟩ : Integer IntType.int8)).value
        = if (-128 : Int) = IntType.int8.minVal then IntType.int8.maxVal else -128 - 1) ∧
    Integer.preDec (⟨-128⟩ : Integer IntType.int8) = ⟨127⟩ ∧
    Integer.preDec (Integer.preInc (⟨-128⟩ : Integer IntType.int8)) = ⟨-128⟩ ∧
    Integer.preInc (Integer.preDec (⟨-128⟩ : Integer IntType.int8)) = ⟨-128⟩ :=
  ⟨⟨by decide, by decide⟩,
    (decrement_semantics IntType.int8 (-128) (by decide) (by decide)).1,
    by decide,
    (decrement_semantics IntType.int8 (-128) (by decide) (by decide)).2.2.2.2.1,
    (decrement_semantics IntType.int8 (-128) (by decide) (by decide)).2.2.2.2.2⟩

/-- C20: for values `a`, `b` of the representation with `b` non-zero, the
least value of a signed `T` divided by -1 excepted, the wrapper's `/` and `%`
(and `/=`, `%=`) do not fault; the quotient is `a / b` rounded toward zero (its
magnitude is the floor of the quotient of the magnitudes); the remainder has
magnitude less than that of `b` and the sign of `a` or is zero; and
`(wrapper(a) / wrapper(b)) * wrapper(b) + (wrapper(a) % wrapper(b))` equals
`wrapper(a)`. -/
theorem truncated_division_identity (T : IntType) (a b : Int) (hw : 0 < T.bits)
    (ha : T.inRange a) (hb : T.inRange b) (hb0 : b ≠ 0)
    (hex : ¬ (T.signed = true ∧ a = T.minVal ∧ b = -1)) :
    (Integer.div (⟨a⟩ : Integer T) ⟨b⟩ = .ok ⟨a.tdiv b⟩ ∧
      Integer.mod (⟨a⟩ : Integer T) ⟨b⟩ = .ok ⟨a.tmod b⟩ ∧
      Integer.divAssign (⟨a⟩ : Integer T) ⟨b⟩ = .ok ⟨a.tdiv b⟩ ∧
      Integer.modAssign (⟨a⟩ : Integer T) ⟨b⟩ = .ok ⟨a.tmod b⟩) ∧
    ((a.tdiv b).natAbs = a.natAbs / b.natAbs ∧ T.inRange (a.tdiv b)) ∧
    (|a.tmod b| < |b| ∧ (0 ≤ a → 0 ≤ a.tmod b) ∧ (a ≤ 0 → a.tmod b ≤ 0) ∧
      T.inRange (a.tmod b)) ∧
    (Integer.add (Integer.mul (⟨a.tdiv b⟩ : Integer T) ⟨b⟩) ⟨a.tmod b⟩ = ⟨a⟩ ∧
      (do
        let q ← Integer.div (⟨a⟩ : Integer T) ⟨b⟩
        let r ← Integer.mod (⟨a⟩ : Integer T) ⟨b⟩
        pure (Integer.eq (Integer.add (Integer.mul q ⟨b⟩) r) ⟨a⟩)) = .ok true) := by
  have hq : T.inRange (a.tdiv b) := T.tdiv_inRange a b ha hb hb0 hex
  have hr : T.inRange (a.tmod b) := T.tmod_inRange a b ha
  have hqP : T.promote.inRange (a.tdiv b) := T.inRange_promote _ hq
  have hda : Integer.divAssign (⟨a⟩ : Integer T) ⟨b⟩ = .ok ⟨a.tdiv b⟩ := by
    simp only [Integer.divAssign, IntType.div, hb0, hqP, if_true, if_false, bind, Except.bind,
      pure, Except.pure, T.convert_of_inRange hw _ hq]
  have hma : Integer.modAssign (⟨a⟩ : Integer T) ⟨b⟩ = .ok ⟨a.tmod b⟩ := by
    simp only [Integer.modAssign, IntType.mod, hb0, hqP, if_true, if_false, bind, Except.bind,
      pure, Except.pure, T.convert_of_inRange hw _ hr]
  have hd : Integer.div (⟨a⟩ : Integer T) ⟨b⟩ = .ok ⟨a.tdiv b⟩ := by
    simp only [Integer.div, hda, bind, Except.bind, pure, Except.pure]
  have hm : Integer.mod (⟨a⟩ : Integer T) ⟨b⟩ = .ok ⟨a.tmod b⟩ := by
    simp only [Integer.mod, hma, bind, Except.bind, pure, Except.pure]
  have hid : Integer.add (Integer.mul (⟨a.tdiv b⟩ : Integer T) ⟨b⟩) ⟨a.tmod b⟩ = ⟨a⟩ := by
    show (⟨T.convert (T.promote.convert
      (T.convert (T.promote.convert (a.tdiv b * b)) + a.tmod b))⟩ : Integer T) = ⟨a⟩
    rw [T.stored_eq hw _ a ha]
    rw [Int.add_emod, T.convert_emod, T.promote_convert_emod, ← Int.add_emod,
      Int.tdiv_add_tmod']
  refine ⟨⟨hd, hm, hda, hma⟩, ⟨Int.natAbs_tdiv a b, hq⟩, ⟨?_, Int.tmod_nonneg b,
    Int.tmod_nonpos_of_nonpos a b, hr⟩, hid, ?_⟩
  · rw [Int.abs_eq_natAbs, Int.abs_eq_natAbs, Int.natAbs_tmod_eq]
    exact Int.ofNat_lt.mpr (Nat.mod_lt _ (Int.natAbs_pos.mpr hb0))
  · rw [hd, hm]
    simp only [bind, Except.bind, pure, Except.pure, hid]
    exact congrArg Except.ok ((Integer.eq_iff _ _).mpr rfl)

/-- C20, at `std::int8_t` with `a = -7` and `b = 2`: quotient -3, remainder
-1. -/
theorem truncated_division_identity_witness :
    (0 < IntType.int8.bits ∧ IntType.int8.inRange (-7) ∧ IntType.int8.inRange 2 ∧
      (2 : Int) ≠ 0 ∧
      ¬ (IntType.int8.signed = true ∧ (-7 : Int) = IntType.int8.minVal ∧ (2 : Int) = -1)) ∧
    Integer.div (⟨-7⟩ : Integer IntType.int8) ⟨2⟩ = .ok ⟨(-7 : Int).tdiv 2⟩ ∧
    Integer.div (⟨-7⟩ : Integer IntType.int8) ⟨2⟩ = .ok ⟨-3⟩ ∧
    Integer.mod (⟨-7⟩ : Integer IntType.int8) ⟨2⟩ = .ok ⟨-1⟩ ∧
    Integer.add (Integer.mul (⟨(-7 : Int).tdiv 2⟩ : Integer IntType.int8) ⟨2⟩)
      ⟨(-7 : Int).tmod 2⟩ = ⟨-7⟩ :=
  ⟨⟨by decide, by decide, by decide, by decide, by decide⟩,
    (truncated_division_identity IntType.int8 (-7) 2 (by decide) (by decide) (by decide)
      (by decide) (by decide)).1.1,
    by decide, by decide,
    (truncated_division_identity IntType.int8 (-7) 2 (by decide) (by decide) (by decide)
      (by decide) (by decide)).2.2.2.1⟩

end hk
